import Mathlib

/-!
# Verification of the lonely-transactions concurrency harness

Shallow embedding of the transactional key-value stores
(`db/simpledb_read_uncommitted.go`, the row-locked variant
`simpledb_read_uncommitted_write_lock.go`) and of the barrier-based
transaction executor (`anomalytest/transaction_executor.go`), together
with proofs of the specification's testable properties.

Conventions of the embedding:
* Go maps become functions into `Option`; a missing key is `none`.
* Go `int` / `int64` become `Int` (no claim exercises overflow).
* Go `error` results become `Option String`; `none` is Go's `nil`.
* The per-transaction undo log of closures is represented by the tagged
  compensating actions it captures: restore a previous value, or remove
  a key that did not exist (exactly the two closure shapes in the source).
* Operations that run entirely under the store's locks are modelled as
  atomic state transitions; a `Set`/`Delete` of the row-locked store that
  would block on another transaction's row lock is represented by `none`
  (the step is not enabled until the lock is released).
-/

/-- Pointwise update of a map-as-function, the meaning of Go's
`m[k] = v` (with `v := none` for `delete(m, k)`). -/
def updF {α β : Type} [DecidableEq α] (f : α → Option β) (k : α) (v : Option β) :
    α → Option β :=
  fun k' => if k' = k then v else f k'

/-- A compensating undo action, as captured by the closures appended in
`Set`/`Delete`: either restore the previous value of a key, or delete a
key that did not exist before the write. -/
inductive UndoOp : Type where
  | restore (key val : Int)
  | remove (key : Int)
deriving DecidableEq, Repr

/-- Run one undo closure against the data map. -/
def applyUndo (op : UndoOp) (data : Int → Option Int) : Int → Option Int :=
  match op with
  | .restore k v => updF data k (some v)
  | .remove k => updF data k none

/-- Replay an undo log in strict reverse order (`for i := len-1; i >= 0; i--`
in `Rollback`): the entry appended last is applied first. -/
def replayUndo (log : List UndoOp) (data : Int → Option Int) : Int → Option Int :=
  log.foldr applyUndo data

/-- State of `SimpleDBReadUncommitted`: the key map, the next transaction
id, and the per-transaction undo logs. -/
structure SimpleDBReadUncommitted : Type where
  data : Int → Option Int
  nextTxnId : Int
  txnUndoOps : Int → Option (List UndoOp)

namespace SimpleDBReadUncommitted

/-- `NewSimpleDBReadUncommitted`: empty map, ids start at 1, no undo logs. -/
def init : SimpleDBReadUncommitted :=
  { data := fun _ => none, nextTxnId := 1, txnUndoOps := fun _ => none }

/-- `BeginTx`: hand out the next id, bump the counter, create an empty
undo log for the new transaction.  Returns `(store, txId, error)`. -/
def BeginTx (d : SimpleDBReadUncommitted) (_isolationLevel : String) :
    SimpleDBReadUncommitted × Int × Option String :=
  ({ data := d.data
     nextTxnId := d.nextTxnId + 1
     txnUndoOps := updF d.txnUndoOps d.nextTxnId (some []) },
   d.nextTxnId, none)

/-- The undo entry `Set` captures for key `k`: restore the old value if the
key exists, otherwise delete the key. -/
def preImage (d : SimpleDBReadUncommitted) (k : Int) : UndoOp :=
  match d.data k with
  | some old => .restore k old
  | none => .remove k

/-- `Set`: append the pre-image compensator to the transaction's undo log
(Go's `append` on a possibly-nil slice creates the log if absent), then
write the value. -/
def Set (d : SimpleDBReadUncommitted) (txId key value : Int) :
    SimpleDBReadUncommitted × Option String :=
  ({ data := updF d.data key (some value)
     nextTxnId := d.nextTxnId
     txnUndoOps := updF d.txnUndoOps txId
       (some ((d.txnUndoOps txId).getD [] ++ [preImage d key])) },
   none)

/-- `Get`: return the current value, the zero value `0` if the key is
absent; never an error, never dependent on the reading transaction. -/
def Get (d : SimpleDBReadUncommitted) (_txId key : Int) : Int × Option String :=
  ((d.data key).getD 0, none)

/-- `Delete`: append a restore compensator only when the key exists
(the source appends nothing for an absent key), then remove the key. -/
def Delete (d : SimpleDBReadUncommitted) (txId key : Int) :
    SimpleDBReadUncommitted × Option String :=
  ({ data := updF d.data key none
     nextTxnId := d.nextTxnId
     txnUndoOps :=
       match d.data key with
       | some old =>
           updF d.txnUndoOps txId
             (some ((d.txnUndoOps txId).getD [] ++ [UndoOp.restore key old]))
       | none => d.txnUndoOps },
   none)

/-- `Commit`: discard the undo log; no other state change. -/
def Commit (d : SimpleDBReadUncommitted) (txId : Int) :
    SimpleDBReadUncommitted × Option String :=
  ({ data := d.data
     nextTxnId := d.nextTxnId
     txnUndoOps := updF d.txnUndoOps txId none },
   none)

/-- `Rollback`: replay the transaction's undo log in reverse order
(an absent log replays nothing), then discard it. -/
def Rollback (d : SimpleDBReadUncommitted) (txId : Int) :
    SimpleDBReadUncommitted × Option String :=
  ({ data := replayUndo ((d.txnUndoOps txId).getD []) d.data
     nextTxnId := d.nextTxnId
     txnUndoOps := updF d.txnUndoOps txId none },
   none)

end SimpleDBReadUncommitted

/-- A write performed by a transaction: `Set` or `Delete` (claims about
rollback quantify over sequences of these). -/
inductive WriteOp : Type where
  | set (key value : Int)
  | del (key : Int)
deriving DecidableEq, Repr

/-- Run one write of transaction `txId` against the store, discarding the
(always-nil) error. -/
def applyWrite (txId : Int) (d : SimpleDBReadUncommitted) (w : WriteOp) :
    SimpleDBReadUncommitted :=
  match w with
  | .set k v => (d.Set txId k v).1
  | .del k => (d.Delete txId k).1

/-- Run a sequence of writes `w1..wn` of transaction `txId` in order. -/
def applyWrites (txId : Int) (ws : List WriteOp) (d : SimpleDBReadUncommitted) :
    SimpleDBReadUncommitted :=
  ws.foldl (applyWrite txId) d

/-! ## The row-locked store variant (`SimpleDBReadUncommittedWriteLock`)

Adds a per-key exclusive lock map (`rowLocks`, the locked/unlocked state of
each lazily created `sync.Mutex`; an absent mutex is an unlocked one) and a
per-transaction set of held keys (`txnHeldLocks`; an absent inner map is the
empty set).  A `Set`/`Delete` whose row-lock acquisition would block on
another live transaction is modelled as a disabled step (`none`). -/

/-- State of `SimpleDBReadUncommittedWriteLock`. -/
structure SimpleDBReadUncommittedWriteLock : Type where
  data : Int → Option Int
  nextTxnId : Int
  txnUndoOps : Int → Option (List UndoOp)
  rowLocks : Int → Bool
  txnHeldLocks : Int → Option (Int → Bool)

namespace SimpleDBReadUncommittedWriteLock

/-- `NewSimpleDBReadUncommittedWriteLock`: all maps empty, ids start at 1. -/
def init : SimpleDBReadUncommittedWriteLock :=
  { data := fun _ => none
    nextTxnId := 1
    txnUndoOps := fun _ => none
    rowLocks := fun _ => false
    txnHeldLocks := fun _ => none }

/-- Does transaction `txId` currently hold the row lock for `key`?
(Go: `d.txnHeldLocks[txId] != nil && d.txnHeldLocks[txId][key]`.) -/
def heldBy (d : SimpleDBReadUncommittedWriteLock) (txId key : Int) : Bool :=
  match d.txnHeldLocks txId with
  | some s => s key
  | none => false

/-- `acquireRowLock`: if the transaction already holds the key's lock,
return with no state change at all (the early-return branch).  Otherwise
lock the (lazily created) row mutex — `none` when it is held by someone
else, i.e. the caller blocks — and record the key in the transaction's
held set. -/
def acquireRowLock (d : SimpleDBReadUncommittedWriteLock) (txId key : Int) :
    Option SimpleDBReadUncommittedWriteLock :=
  if d.heldBy txId key then
    some d
  else if d.rowLocks key then
    none
  else
    some { d with
      rowLocks := fun k => if k = key then true else d.rowLocks k
      txnHeldLocks := updF d.txnHeldLocks txId
        (some (fun k => if k = key then true else
          match d.txnHeldLocks txId with
          | some s => s k
          | none => false)) }

/-- `releaseRowLocks`: unlock every row mutex in the transaction's held
set, then drop the held set. -/
def releaseRowLocks (d : SimpleDBReadUncommittedWriteLock) (txId : Int) :
    SimpleDBReadUncommittedWriteLock :=
  { d with
    rowLocks := fun k => if d.heldBy txId k then false else d.rowLocks k
    txnHeldLocks := updF d.txnHeldLocks txId none }

/-- `BeginTx`: as in the unsynchronized variant. -/
def BeginTx (d : SimpleDBReadUncommittedWriteLock) (_isolationLevel : String) :
    SimpleDBReadUncommittedWriteLock × Int × Option String :=
  ({ d with
     nextTxnId := d.nextTxnId + 1
     txnUndoOps := updF d.txnUndoOps d.nextTxnId (some []) },
   d.nextTxnId, none)

/-- The pre-image compensator captured by `Set`, as in the other variant. -/
def preImage (d : SimpleDBReadUncommittedWriteLock) (k : Int) : UndoOp :=
  match d.data k with
  | some old => .restore k old
  | none => .remove k

/-- `Set`: acquire the row lock first (row lock before global lock; the
step is disabled while another transaction holds the lock), then append
the pre-image compensator and write the value. -/
def Set (d : SimpleDBReadUncommittedWriteLock) (txId key value : Int) :
    Option (SimpleDBReadUncommittedWriteLock × Option String) :=
  (d.acquireRowLock txId key).map fun d1 =>
    ({ d1 with
       data := updF d1.data key (some value)
       txnUndoOps := updF d1.txnUndoOps txId
         (some ((d1.txnUndoOps txId).getD [] ++ [preImage d1 key])) },
     none)

/-- `Get`: exactly as in the unsynchronized variant — the current value or
the zero value, no error, no isolation check. -/
def Get (d : SimpleDBReadUncommittedWriteLock) (_txId key : Int) :
    Int × Option String :=
  ((d.data key).getD 0, none)

/-- `Delete`: acquire the row lock, then remove the key, appending a
restore compensator only when it exists. -/
def Delete (d : SimpleDBReadUncommittedWriteLock) (txId key : Int) :
    Option (SimpleDBReadUncommittedWriteLock × Option String) :=
  (d.acquireRowLock txId key).map fun d1 =>
    ({ d1 with
       data := updF d1.data key none
       txnUndoOps :=
         match d1.data key with
         | some old =>
             updF d1.txnUndoOps txId
               (some ((d1.txnUndoOps txId).getD [] ++ [UndoOp.restore key old]))
         | none => d1.txnUndoOps },
     none)

/-- `Commit`: release all of the transaction's row locks (before the
global lock), then discard the undo log. -/
def Commit (d : SimpleDBReadUncommittedWriteLock) (txId : Int) :
    SimpleDBReadUncommittedWriteLock × Option String :=
  (let d1 := d.releaseRowLocks txId
   { d1 with txnUndoOps := updF d1.txnUndoOps txId none },
   none)

/-- `Rollback`: release all row locks, replay the undo log in reverse,
then discard it. -/
def Rollback (d : SimpleDBReadUncommittedWriteLock) (txId : Int) :
    SimpleDBReadUncommittedWriteLock × Option String :=
  (let d1 := d.releaseRowLocks txId
   { d1 with
     data := replayUndo ((d1.txnUndoOps txId).getD []) d1.data
     txnUndoOps := updF d1.txnUndoOps txId none },
   none)

end SimpleDBReadUncommittedWriteLock

/-! ## Call traces against the unsynchronized store

Used to state which transaction ids a history can leave an undo log for. -/

/-- One call against the `SimpleDBReadUncommitted` store, with the
transaction id the caller passes in. -/
inductive DbCall : Type where
  | begin
  | set (txId key value : Int)
  | get (txId key : Int)
  | del (txId key : Int)
  | commit (txId : Int)
  | rollback (txId : Int)
deriving DecidableEq, Repr

/-- The state transition of one call (results and always-nil errors
discarded). -/
def stepDbCall (d : SimpleDBReadUncommitted) (c : DbCall) : SimpleDBReadUncommitted :=
  match c with
  | .begin => (d.BeginTx "READ_UNCOMMITTED").1
  | .set t k v => (d.Set t k v).1
  | .get _ _ => d
  | .del t k => (d.Delete t k).1
  | .commit t => (d.Commit t).1
  | .rollback t => (d.Rollback t).1

/-- Run a sequence of calls in order. -/
def runDbCalls (cs : List DbCall) (d : SimpleDBReadUncommitted) : SimpleDBReadUncommitted :=
  cs.foldl stepDbCall d

/-- Does this call write (Set/Delete) under transaction id `txId`? -/
def writesTxn (txId : Int) : DbCall → Bool :=
  fun c =>
    match c with
    | .set t _ _ => t == txId
    | .del t _ => t == txId
    | _ => false

/-! ## The barrier-based transaction executor (`transaction_executor.go`)

One worker per recorded script; workers interleave arbitrarily; each step
is one recorded operation.  Barriers are one-shot channels: `none` means
never registered (a nil channel), `some false` an open channel, `some true`
a closed one.  `close` of a nil or already-closed channel is a Go panic,
modelled as the `fatal` outcome. -/

/-- `Results`: observed `Get` values keyed by transaction name and
operation index. -/
def ResultsMap : Type := String → Nat → Option Int

/-- `Results.store`: record one observation. -/
def updResults (r : ResultsMap) (txnName : String) (opIndex : Nat) (value : Int) :
    ResultsMap :=
  fun n j => if n = txnName then (if j = opIndex then some value else r n j) else r n j

/-- `Results.Get` / `GetValue`: an absent entry reads as 0. -/
def resultsGet (r : ResultsMap) (txnName : String) (opIndex : Nat) : Int :=
  (r txnName opIndex).getD 0

/-- A database action recorded on a transaction handle — the `fn` closures
built by the `Txn` recorder methods.  `setComputed` carries the
execution-time value function reading the result store. -/
inductive DbAct : Type where
  | beginTx
  | set (key value : Int)
  | setComputed (key : Int) (valueFn : ResultsMap → Int)
  | get (key : Int)
  | del (key : Int)
  | commit
  | rollback
  | printDbState

/-- One recorded operation (`operation` in the source). -/
inductive Op : Type where
  | db (act : DbAct)
  | barrier (name : String)
  | waitFor (name : String)
  | waitForWithTimeout (name : String)

/-- The store capability the executor consumes (`Database` interface).
Blocking calls (`set`, `del`, which may wait on a row lock) return `none`
while disabled; the others always return, with a `(state, error)` or
`(state, value, error)` result. -/
structure StoreOps (σ : Type) : Type where
  beginTx : σ → String → σ × Int × Option String
  set : σ → Int → Int → Int → Option (σ × Option String)
  get : σ → Int → Int → Int × Option String
  del : σ → Int → Int → Option (σ × Option String)
  commit : σ → Int → σ × Option String
  rollback : σ → Int → σ × Option String

/-- A worker (`Txn`): its name, its current transaction id (the Go zero
value 0 until `BeginTx` succeeds), its recorded operations, and its
program counter. -/
structure WorkerSt : Type where
  name : String
  txnId : Int
  ops : List Op
  pc : Nat

/-- A configuration of the executor: the store, the barrier table, the
result store, and all workers. -/
structure ExecConfig (σ : Type) : Type where
  store : σ
  barriers : String → Option Bool
  results : ResultsMap
  workers : List WorkerSt

/-- Outcome of one worker step: a next configuration together with
whether the worker's error-logging branch ran, or a Go panic (`fatal`). -/
inductive StepOut (σ : Type) : Type where
  | ok (next : ExecConfig σ) (logged : Bool)
  | fatal

/-- Modelled from the spec: `waitWithTimeout(name, d)` blocks until the
barrier is satisfied or until `d` elapses, then returns regardless, and the
caller cannot distinguish the two outcomes.  (The recorder method
`WaitForWithTimeout` used by the dirty-write scenario is part of this
repository but its implementation file is not among the provided sources.)
In the untimed interleaving semantics the timeout may fire at any moment,
so the wait is enabled in every barrier state. -/
def timedWaitReturns (_barrierState : Option Bool) : Bool := true

/-- Replace worker `i` by `w` advanced past its current operation. -/
def advance {σ : Type} (c : ExecConfig σ) (i : Nat) (w : WorkerSt) : ExecConfig σ :=
  { c with workers := c.workers.set i { w with pc := w.pc + 1 } }

/-- As `advance`, also recording the transaction id `BeginTx` returned. -/
def advanceTx {σ : Type} (c : ExecConfig σ) (i : Nat) (w : WorkerSt) (tid : Int) :
    ExecConfig σ :=
  { c with workers := c.workers.set i { w with txnId := tid, pc := w.pc + 1 } }

/-- One step of worker `i` (`Txn.run`'s loop body): `none` when the worker
is finished or its next operation is blocked; `some fatal` when the step
panics; otherwise the next configuration and whether a store error was
logged. -/
def workerStep {σ : Type} (S : StoreOps σ) (c : ExecConfig σ) (i : Nat) :
    Option (StepOut σ) :=
  match c.workers[i]? with
  | none => none
  | some w =>
    match w.ops[w.pc]? with
    | none => none
    | some (Op.db act) =>
      match act with
      | .beginTx =>
        let r := S.beginTx c.store "READ_UNCOMMITTED"
        match r.2.2 with
        | none => some (.ok { advanceTx c i w r.2.1 with store := r.1 } false)
        | some _ => some (.ok { advance c i w with store := r.1 } true)
      | .set k v =>
        match S.set c.store w.txnId k v with
        | none => none
        | some (s', e) => some (.ok { advance c i w with store := s' } e.isSome)
      | .setComputed k f =>
        match S.set c.store w.txnId k (f c.results) with
        | none => none
        | some (s', e) => some (.ok { advance c i w with store := s' } e.isSome)
      | .get k =>
        let r := S.get c.store w.txnId k
        match r.2 with
        | none =>
          some (.ok { advance c i w with results := updResults c.results w.name w.pc r.1 } false)
        | some _ => some (.ok (advance c i w) true)
      | .del k =>
        match S.del c.store w.txnId k with
        | none => none
        | some (s', e) => some (.ok { advance c i w with store := s' } e.isSome)
      | .commit =>
        let r := S.commit c.store w.txnId
        some (.ok { advance c i w with store := r.1 } r.2.isSome)
      | .rollback =>
        let r := S.rollback c.store w.txnId
        some (.ok { advance c i w with store := r.1 } r.2.isSome)
      | .printDbState => some (.ok (advance c i w) false)
    | some (Op.barrier n) =>
      match c.barriers n with
      | some false =>
        some (.ok { advance c i w with barriers := updF c.barriers n (some true) } false)
      | some true => some .fatal
      | none => some .fatal
    | some (Op.waitFor n) =>
      match c.barriers n with
      | some true => some (.ok (advance c i w) false)
      | _ => none
    | some (Op.waitForWithTimeout n) =>
      if timedWaitReturns (c.barriers n) then some (.ok (advance c i w) false)
      else none

/-- Does an operation signal barrier `n`? -/
def opSignals (n : String) : Op → Bool :=
  fun op =>
    match op with
    | .barrier m => m == n
    | _ => false

/-- Does any worker's script signal barrier `n`? -/
def scriptsSignal (ws : List WorkerSt) (n : String) : Bool :=
  ws.any fun w => w.ops.any (opSignals n)

/-- `registerBarriers` over one script: create an (open) channel for every
barrier name that appears as a signal. -/
def collectBarriers (ops : List Op) (b : String → Option Bool) : String → Option Bool :=
  ops.foldl
    (fun b op =>
      match op with
      | Op.barrier n => updF b n (some false)
      | _ => b)
    b

/-- `registerBarriers`: the pre-scan over all scripts, before any worker
starts. -/
def registerBarriers (ws : List WorkerSt) : String → Option Bool :=
  ws.foldl (fun b w => collectBarriers w.ops b) (fun _ => none)

/-- The configuration `Execute` starts its workers from: the given store,
the pre-scanned barrier table, an empty result store. -/
def initExecConfig {σ : Type} (s0 : σ) (ws : List WorkerSt) : ExecConfig σ :=
  { store := s0, barriers := registerBarriers ws, results := fun _ _ => none, workers := ws }

/-- Run a schedule: at each step the named worker must take an enabled,
non-panicking step.  `none` means the schedule is not a valid execution. -/
def run {σ : Type} (S : StoreOps σ) : List Nat → ExecConfig σ → Option (ExecConfig σ)
  | [], c => some c
  | i :: rest, c =>
    match workerStep S c i with
    | some (.ok c' _) => run S rest c'
    | _ => none

/-- Every worker has consumed its whole operation list (`Execute`
returns). -/
def allDoneB {σ : Type} (c : ExecConfig σ) : Bool :=
  c.workers.all fun w => w.ops.length ≤ w.pc

/-- The `Database` instance backed by `SimpleDBReadUncommitted`: no call
ever blocks. -/
def storeOpsRU : StoreOps SimpleDBReadUncommitted :=
  { beginTx := SimpleDBReadUncommitted.BeginTx
    set := fun d t k v => some (d.Set t k v)
    get := fun d t k => d.Get t k
    del := fun d t k => some (d.Delete t k)
    commit := SimpleDBReadUncommitted.Commit
    rollback := SimpleDBReadUncommitted.Rollback }

/-- The `Database` instance backed by the row-locked store: `Set`/`Delete`
block while another transaction holds the row lock. -/
def storeOpsWL : StoreOps SimpleDBReadUncommittedWriteLock :=
  { beginTx := SimpleDBReadUncommittedWriteLock.BeginTx
    set := SimpleDBReadUncommittedWriteLock.Set
    get := fun d t k => d.Get t k
    del := SimpleDBReadUncommittedWriteLock.Delete
    commit := SimpleDBReadUncommittedWriteLock.Commit
    rollback := SimpleDBReadUncommittedWriteLock.Rollback }

/-! ## The canonical dirty-write scenario (`TestDirtyWrite`)

The three scripts of `anomaly_dirty_writes.go`, recorded verbatim. -/

/-- Script of `txn1`: begin; set key 1 = 100; signal `txn1_wrote_first`;
bounded wait for `txn2_wrote_second`; print; set key 2 = 200; commit;
signal `txn1_committed`. -/
def txn1Ops : List Op :=
  [ .db .beginTx,
    .db (.set 1 100),
    .barrier "txn1_wrote_first",
    .waitForWithTimeout "txn2_wrote_second",
    .db .printDbState,
    .db (.set 2 200),
    .db .commit,
    .barrier "txn1_committed" ]

/-- Script of `txn2`: begin; wait for `txn1_wrote_first`; print;
set key 1 = 200; set key 2 = 100; signal `txn2_wrote_second`; wait for
`txn1_committed`; commit; signal `txn2_committed`. -/
def txn2Ops : List Op :=
  [ .db .beginTx,
    .waitFor "txn1_wrote_first",
    .db .printDbState,
    .db (.set 1 200),
    .db (.set 2 100),
    .barrier "txn2_wrote_second",
    .waitFor "txn1_committed",
    .db .commit,
    .barrier "txn2_committed" ]

/-- Script of `txn3`: begin; wait for both commits; read keys 1 and 2;
commit. -/
def txn3Ops : List Op :=
  [ .db .beginTx,
    .waitFor "txn2_committed",
    .waitFor "txn1_committed",
    .db (.get 1),
    .db (.get 2),
    .db .commit ]

/-- The three workers of the dirty-write scenario. -/
def dirtyWriteWorkers : List WorkerSt :=
  [ { name := "txn1", txnId := 0, ops := txn1Ops, pc := 0 },
    { name := "txn2", txnId := 0, ops := txn2Ops, pc := 0 },
    { name := "txn3", txnId := 0, ops := txn3Ops, pc := 0 } ]

/-- The scenario's starting configuration: fresh row-locked store,
pre-registered barriers. -/
def dirtyWriteInit : ExecConfig SimpleDBReadUncommittedWriteLock :=
  initExecConfig SimpleDBReadUncommittedWriteLock.init dirtyWriteWorkers

/-- Inductive invariant of the dirty-write scenario under the row-locked
store, tying every reachable configuration to the three program counters
`p1 p2 p3` and the transaction ids `t1 t2 t3`.  It pins down the barrier
states, the cross-script ordering forced by barriers and by the row lock
on key 1, the lock tables, the key map, and the captured read results. -/
def DWProps (c : ExecConfig SimpleDBReadUncommittedWriteLock)
    (p1 p2 p3 : Nat) (t1 t2 t3 : Int) : Prop :=
  p1 ≤ 8 ∧ p2 ≤ 9 ∧ p3 ≤ 6 ∧
  (p1 = 0 → t1 = 0) ∧ (1 ≤ p1 → 1 ≤ t1 ∧ t1 < c.store.nextTxnId) ∧
  (p2 = 0 → t2 = 0) ∧ (1 ≤ p2 → 1 ≤ t2 ∧ t2 < c.store.nextTxnId) ∧
  (p3 = 0 → t3 = 0) ∧ (1 ≤ p3 → 1 ≤ t3 ∧ t3 < c.store.nextTxnId) ∧
  (1 ≤ p1 → 1 ≤ p2 → t1 ≠ t2) ∧
  (1 ≤ p1 → 1 ≤ p3 → t1 ≠ t3) ∧
  (1 ≤ p2 → 1 ≤ p3 → t2 ≠ t3) ∧
  1 ≤ c.store.nextTxnId ∧
  c.barriers "txn1_wrote_first" = some (decide (3 ≤ p1)) ∧
  c.barriers "txn2_wrote_second" = some (decide (6 ≤ p2)) ∧
  c.barriers "txn1_committed" = some (decide (8 ≤ p1)) ∧
  c.barriers "txn2_committed" = some (decide (9 ≤ p2)) ∧
  (2 ≤ p2 → 3 ≤ p1) ∧
  (4 ≤ p2 → 7 ≤ p1) ∧
  (7 ≤ p2 → 8 ≤ p1) ∧
  (2 ≤ p3 → 9 ≤ p2) ∧
  (3 ≤ p3 → 8 ≤ p1) ∧
  (c.store.rowLocks 1 = true ↔ ((2 ≤ p1 ∧ p1 ≤ 6) ∨ (4 ≤ p2 ∧ p2 ≤ 7))) ∧
  (c.store.rowLocks 2 = true ↔ (p1 = 6 ∨ (5 ≤ p2 ∧ p2 ≤ 7))) ∧
  (∀ k : Int, k ≠ 1 → k ≠ 2 → c.store.rowLocks k = false) ∧
  (∀ k : Int, c.store.heldBy t1 k = true ↔
    ((k = 1 ∧ 2 ≤ p1 ∧ p1 ≤ 6) ∨ (k = 2 ∧ p1 = 6))) ∧
  (∀ k : Int, c.store.heldBy t2 k = true ↔
    ((k = 1 ∧ 4 ≤ p2 ∧ p2 ≤ 7) ∨ (k = 2 ∧ 5 ≤ p2 ∧ p2 ≤ 7))) ∧
  (∀ k : Int, c.store.heldBy t3 k = false) ∧
  (∀ t : Int, c.store.nextTxnId ≤ t → c.store.txnHeldLocks t = none) ∧
  (p1 ≤ 1 → c.store.data 1 = none) ∧
  (2 ≤ p1 → p2 ≤ 3 → c.store.data 1 = some 100) ∧
  (4 ≤ p2 → c.store.data 1 = some 200) ∧
  (p1 ≤ 5 → c.store.data 2 = none) ∧
  (6 ≤ p1 → p2 ≤ 4 → c.store.data 2 = some 200) ∧
  (5 ≤ p2 → c.store.data 2 = some 100) ∧
  (c.results "txn3" 3 = if 4 ≤ p3 then some 200 else none) ∧
  (c.results "txn3" 4 = if 5 ≤ p3 then some 100 else none)

/-- The full invariant: some program counters and transaction ids exist
for which the worker list is exactly the three scenario scripts and
`DWProps` holds. -/
def DWInv (c : ExecConfig SimpleDBReadUncommittedWriteLock) : Prop :=
  ∃ p1 p2 p3 : Nat, ∃ t1 t2 t3 : Int,
    c.workers =
      [ { name := "txn1", txnId := t1, ops := txn1Ops, pc := p1 },
        { name := "txn2", txnId := t2, ops := txn2Ops, pc := p2 },
        { name := "txn3", txnId := t3, ops := txn3Ops, pc := p3 } ] ∧
    DWProps c p1 p2 p3 t1 t2 t3

/-- A `Database` over a unit state whose every call fails: the interface
allows failing stores, and the executor must swallow their errors. -/
def failStoreOps : StoreOps Unit :=
  { beginTx := fun s _ => (s, 0, some "boom")
    set := fun s _ _ _ => some (s, some "boom")
    get := fun _ _ _ => (0, some "boom")
    del := fun s _ _ => some (s, some "boom")
    commit := fun s _ => (s, some "boom")
    rollback := fun s _ => (s, some "boom") }

/-- A tiny two-worker configuration whose barrier `b` has already been
signaled: worker 0 is about to signal `b` again, worker 1 to wait on it. -/
def signaledTwice : ExecConfig Unit :=
  { store := ()
    barriers := fun m => if m = "b" then some true else none
    results := fun _ _ => none
    workers :=
      [ { name := "w1", txnId := 0, ops := [Op.barrier "b"], pc := 0 },
        { name := "w2", txnId := 0, ops := [Op.waitFor "b"], pc := 0 } ] }

/-- The value of a held-locks table at one transaction and key (the
kernel of `heldBy`, exposed for reasoning about updated tables). -/
def heldOf (m : Int → Option (Int → Bool)) (t k : Int) : Bool :=
  match m t with
  | some s => s k
  | none => false

/-! From here on: the theorems. -/

theorem updF_same {α β : Type} [DecidableEq α] (f : α → Option β) (k : α) (v : Option β) :
    updF f k v k = v := by
  simp [updF]

theorem updF_other {α β : Type} [DecidableEq α] (f : α → Option β) (k k' : α)
    (v : Option β) (h : k' ≠ k) : updF f k v k' = f k' := by
  simp [updF, h]

theorem replayUndo_nil (data : Int → Option Int) : replayUndo [] data = data := rfl

theorem replayUndo_append (l₁ l₂ : List UndoOp) (data : Int → Option Int) :
    replayUndo (l₁ ++ l₂) data = replayUndo l₁ (replayUndo l₂ data) := by
  simp [replayUndo, List.foldr_append]

/-- Undoing the entry captured by a single write restores the data map. -/
theorem applyUndo_applyWrite (txId : Int) (d : SimpleDBReadUncommitted)
    (w : WriteOp) (k : Int) :
    replayUndo (((applyWrite txId d w).txnUndoOps txId).getD []) (applyWrite txId d w).data k =
      replayUndo ((d.txnUndoOps txId).getD []) d.data k := by
  cases w with
  | set key value =>
    simp only [applyWrite, SimpleDBReadUncommitted.Set, updF_same]
    rw [Option.getD_some, replayUndo_append]
    show replayUndo _ (applyUndo (d.preImage key) _) k = _
    congr 1
    funext k'
    by_cases hk : k' = key
    · subst hk
      simp only [SimpleDBReadUncommitted.preImage]
      cases h : d.data k' with
      | none => simp [applyUndo, h, updF]
      | some old => simp [applyUndo, h, updF]
    · simp only [SimpleDBReadUncommitted.preImage]
      cases h : d.data key with
      | none => simp [applyUndo, updF, hk]
      | some old => simp [applyUndo, updF, hk]
  | del key =>
    simp only [applyWrite, SimpleDBReadUncommitted.Delete]
    cases h : d.data key with
    | none =>
      simp only [h]
      congr 1
      funext k'
      by_cases hk : k' = key
      · subst hk; simp [updF, h]
      · simp [updF, hk]
    | some old =>
      simp only [updF_same, Option.getD_some]
      rw [replayUndo_append]
      show replayUndo _ (applyUndo (UndoOp.restore key old) _) k = _
      congr 1
      funext k'
      by_cases hk : k' = key
      · subst hk; simp [applyUndo, updF, h]
      · simp [applyUndo, updF, hk]

/-- Writes of `txId` followed by a replay of its whole undo log restore
the data map, for any starting log. -/
theorem replayUndo_applyWrites (txId : Int) (ws : List WriteOp)
    (d : SimpleDBReadUncommitted) (k : Int) :
    replayUndo (((applyWrites txId ws d).txnUndoOps txId).getD [])
        (applyWrites txId ws d).data k =
      replayUndo ((d.txnUndoOps txId).getD []) d.data k := by
  induction ws generalizing d with
  | nil => rfl
  | cons w rest ih =>
    show replayUndo (((applyWrites txId rest (applyWrite txId d w)).txnUndoOps txId).getD [])
        (applyWrites txId rest (applyWrite txId d w)).data k = _
    rw [ih (applyWrite txId d w), applyUndo_applyWrite]

/-- C1.  A transaction with a fresh (empty) undo log that performs any
sequence of writes `w1..wn` — `Set`s or `Delete`s, keys possibly repeated —
and then calls `Rollback` leaves the data map of `SimpleDBReadUncommitted`
exactly as it was before `w1`: every touched key is restored to its
pre-`w1` state (a key absent before `w1` is absent again, a key written
several times gets back the value before the first of those writes), because
the undo log is replayed in strict reverse order. -/
theorem rollback_restores_preimages (d : SimpleDBReadUncommitted)
    (txId : Int) (ws : List WriteOp)
    (hfresh : d.txnUndoOps txId = some []) (k : Int) :
    ((applyWrites txId ws d).Rollback txId).1.data k = d.data k := by
  show replayUndo _ _ k = _
  rw [replayUndo_applyWrites, hfresh]
  rfl

/-- Witness for `rollback_restores_preimages`: starting from a freshly
begun transaction, write key 1 twice and delete it, then roll back; key 1
is absent again, exactly as before the writes. -/
theorem rollback_restores_preimages_example :
    ((applyWrites 1 [WriteOp.set 1 5, WriteOp.set 1 7, WriteOp.del 1]
        (SimpleDBReadUncommitted.init.BeginTx "READ_UNCOMMITTED").1).Rollback 1).1.data 1 =
      (SimpleDBReadUncommitted.init.BeginTx "READ_UNCOMMITTED").1.data 1 :=
  rollback_restores_preimages
    (SimpleDBReadUncommitted.init.BeginTx "READ_UNCOMMITTED").1 1
    [WriteOp.set 1 5, WriteOp.set 1 7, WriteOp.del 1] (by rfl) 1

/-- C5.  Re-acquiring a row lock already held by the same transaction is a
no-op: `acquireRowLock` returns the state unchanged, and a `Set` or
`Delete` of that key by the same transaction proceeds without blocking and
leaves both the row-lock map and the held-lock sets exactly as they were. -/
theorem row_lock_reentry_noop (d : SimpleDBReadUncommittedWriteLock)
    (txId key value : Int) (h : d.heldBy txId key = true) :
    d.acquireRowLock txId key = some d ∧
    (∃ d1, d.Set txId key value = some (d1, none) ∧
      d1.rowLocks = d.rowLocks ∧ d1.txnHeldLocks = d.txnHeldLocks) ∧
    (∃ d2, d.Delete txId key = some (d2, none) ∧
      d2.rowLocks = d.rowLocks ∧ d2.txnHeldLocks = d.txnHeldLocks) := by
  have hacq : d.acquireRowLock txId key = some d := by
    simp [SimpleDBReadUncommittedWriteLock.acquireRowLock, h]
  have hset : d.Set txId key value =
      some ({ d with
        data := updF d.data key (some value)
        txnUndoOps := updF d.txnUndoOps txId
          (some ((d.txnUndoOps txId).getD []
            ++ [SimpleDBReadUncommittedWriteLock.preImage d key])) }, none) := by
    simp [SimpleDBReadUncommittedWriteLock.Set, hacq]
  have hdel : d.Delete txId key =
      some ({ d with
        data := updF d.data key none
        txnUndoOps :=
          match d.data key with
          | some old =>
              updF d.txnUndoOps txId
                (some ((d.txnUndoOps txId).getD [] ++ [UndoOp.restore key old]))
          | none => d.txnUndoOps }, none) := by
    simp [SimpleDBReadUncommittedWriteLock.Delete, hacq]
  exact ⟨hacq, ⟨_, hset, rfl, rfl⟩, ⟨_, hdel, rfl, rfl⟩⟩

/-- Witness for `row_lock_reentry_noop`: after transaction 1's first write
to key 1 it holds the row lock, and a second write to the same key is a
non-blocking no-op on the lock state. -/
theorem row_lock_reentry_noop_example :
    ∃ d : SimpleDBReadUncommittedWriteLock,
      SimpleDBReadUncommittedWriteLock.init.Set 1 1 5 = some (d, none) ∧
      d.heldBy 1 1 = true ∧
      d.acquireRowLock 1 1 = some d := by
  refine ⟨_, rfl, rfl, ?_⟩
  exact (row_lock_reentry_noop _ 1 1 0 (by rfl)).1

/-- C8 (both variants).  Reading a key that is absent from the store's key
map returns the defined zero value `0` and no error, for every transaction
id, in the unsynchronized store and in the row-locked store alike. -/
theorem absent_key_reads_zero
    (d : SimpleDBReadUncommitted) (dl : SimpleDBReadUncommittedWriteLock)
    (txId txId' key key' : Int)
    (h : d.data key = none) (h' : dl.data key' = none) :
    d.Get txId key = (0, none) ∧ dl.Get txId' key' = (0, none) := by
  constructor
  · simp [SimpleDBReadUncommitted.Get, h]
  · simp [SimpleDBReadUncommittedWriteLock.Get, h']

/-- Witness for `absent_key_reads_zero`: key 42 is absent in both freshly
created stores and reads as `(0, nil)`. -/
theorem absent_key_reads_zero_example :
    SimpleDBReadUncommitted.init.Get 7 42 = (0, none) ∧
    SimpleDBReadUncommittedWriteLock.init.Get 7 42 = (0, none) :=
  absent_key_reads_zero SimpleDBReadUncommitted.init
    SimpleDBReadUncommittedWriteLock.init 7 7 42 42 rfl rfl

/-- C4.  `Set(tx, k, v)` on the unsynchronized store appends the pre-image
of `k` to `tx`'s undo log and makes `v` immediately visible to `Get` for
every transaction id — the reader's id is irrelevant and no commit is
required. -/
theorem set_records_preimage_and_visible (d : SimpleDBReadUncommitted)
    (txId txId' key value : Int) :
    ((d.Set txId key value).1.txnUndoOps txId =
        some ((d.txnUndoOps txId).getD [] ++ [d.preImage key])) ∧
    (d.Set txId key value).1.Get txId' key = (value, none) := by
  constructor
  · simp [SimpleDBReadUncommitted.Set, updF_same]
  · simp [SimpleDBReadUncommitted.Set, SimpleDBReadUncommitted.Get, updF_same]

/-- The transaction-id counter never decreases along a call trace. -/
theorem runDbCalls_nextTxnId_mono (cs : List DbCall) (d : SimpleDBReadUncommitted) :
    d.nextTxnId ≤ (runDbCalls cs d).nextTxnId := by
  induction cs generalizing d with
  | nil => exact le_refl _
  | cons c rest ih =>
    have h1 : d.nextTxnId ≤ (stepDbCall d c).nextTxnId := by
      cases c <;>
        first
        | exact le_refl _
        | · show d.nextTxnId ≤ d.nextTxnId + 1
            omega
    exact le_trans h1 (ih (stepDbCall d c))

/-- A transaction id that no call of the trace writes under, whose undo
log is absent at the start, and which is below the starting counter or at
or above the final counter, still has no undo log at the end. -/
theorem runDbCalls_undo_absent (cs : List DbCall) :
    ∀ (d : SimpleDBReadUncommitted) (txId : Int),
      (∀ c ∈ cs, writesTxn txId c = false) →
      d.txnUndoOps txId = none →
      (txId < d.nextTxnId ∨ (runDbCalls cs d).nextTxnId ≤ txId) →
      (runDbCalls cs d).txnUndoOps txId = none := by
  induction cs with
  | nil => intro d txId _ habs _; exact habs
  | cons c rest ih =>
    intro d txId hw habs hrange
    have hwc : writesTxn txId c = false := hw c (List.mem_cons_self c rest)
    have hwr : ∀ c' ∈ rest, writesTxn txId c' = false :=
      fun c' h => hw c' (List.mem_cons_of_mem c h)
    have hrun : runDbCalls (c :: rest) d = runDbCalls rest (stepDbCall d c) := rfl
    rw [hrun] at hrange ⊢
    have hmono : (stepDbCall d c).nextTxnId ≤ (runDbCalls rest (stepDbCall d c)).nextTxnId :=
      runDbCalls_nextTxnId_mono rest (stepDbCall d c)
    cases c with
    | begin =>
      have hne : txId ≠ d.nextTxnId := by
        rcases hrange with h | h
        · omega
        · have : (stepDbCall d .begin).nextTxnId = d.nextTxnId + 1 := rfl
          omega
      refine ih (stepDbCall d .begin) txId hwr ?_ ?_
      · show updF d.txnUndoOps d.nextTxnId (some []) txId = none
        rw [updF_other _ _ _ _ hne]; exact habs
      · rcases hrange with h | h
        · left
          have : (stepDbCall d .begin).nextTxnId = d.nextTxnId + 1 := rfl
          omega
        · right; exact h
    | set t k v =>
      have hne : t ≠ txId := by
        simp [writesTxn] at hwc; exact hwc
      refine ih _ txId hwr ?_ ?_
      · show updF d.txnUndoOps t _ txId = none
        rw [updF_other _ _ _ _ (Ne.symm hne)]; exact habs
      · rcases hrange with h | h
        · left; exact h
        · right; exact h
    | get t k => exact ih _ txId hwr habs hrange
    | del t k =>
      have hne : t ≠ txId := by
        simp [writesTxn] at hwc; exact hwc
      refine ih _ txId hwr ?_ ?_
      · show (SimpleDBReadUncommitted.Delete d t k).1.txnUndoOps txId = none
        simp only [SimpleDBReadUncommitted.Delete]
        cases hd : d.data k with
        | none => simpa [hd] using habs
        | some old =>
          simp only [hd]
          rw [updF_other _ _ _ _ (Ne.symm hne)]; exact habs
      · rcases hrange with h | h
        · left; exact h
        · right; exact h
    | commit t =>
      refine ih _ txId hwr ?_ ?_
      · show updF d.txnUndoOps t none txId = none
        by_cases ht : txId = t
        · subst ht; rw [updF_same]
        · rw [updF_other _ _ _ _ ht]; exact habs
      · rcases hrange with h | h
        · left; exact h
        · right; exact h
    | rollback t =>
      refine ih _ txId hwr ?_ ?_
      · show updF d.txnUndoOps t none txId = none
        by_cases ht : txId = t
        · subst ht; rw [updF_same]
        · rw [updF_other _ _ _ _ ht]; exact habs
      · rcases hrange with h | h
        · left; exact h
        · right; exact h

/-- C10.  A `Commit` or `Rollback` with a transaction id whose undo-log
entry is absent returns nil and leaves the key map untouched — `Rollback`
replays an empty log.  The entry is absent for an id never issued by
`BeginTx` along any call trace from a fresh store (ids below 1 or at or
beyond the final counter, with no stray writes under that id), and it is
absent again immediately after any `Commit` or `Rollback` of that id. -/
theorem stale_txn_finish_noop :
    (∀ (cs : List DbCall) (txId : Int),
        (∀ c ∈ cs, writesTxn txId c = false) →
        (txId < 1 ∨ (runDbCalls cs SimpleDBReadUncommitted.init).nextTxnId ≤ txId) →
        (runDbCalls cs SimpleDBReadUncommitted.init).txnUndoOps txId = none) ∧
    (∀ (d : SimpleDBReadUncommitted) (txId : Int),
        d.txnUndoOps txId = none →
        (d.Commit txId).2 = none ∧ (d.Commit txId).1.data = d.data ∧
        (d.Rollback txId).2 = none ∧ (d.Rollback txId).1.data = d.data) ∧
    (∀ (d : SimpleDBReadUncommitted) (txId : Int),
        (d.Commit txId).1.txnUndoOps txId = none ∧
        (d.Rollback txId).1.txnUndoOps txId = none) := by
  refine ⟨?_, ?_, ?_⟩
  · intro cs txId hw hrange
    exact runDbCalls_undo_absent cs SimpleDBReadUncommitted.init txId hw rfl hrange
  · intro d txId habs
    refine ⟨rfl, rfl, rfl, ?_⟩
    show replayUndo ((d.txnUndoOps txId).getD []) d.data = d.data
    rw [habs]; rfl
  · intro d txId
    exact ⟨updF_same _ _ _, updF_same _ _ _⟩

/-- Witness for `stale_txn_finish_noop`: after a trace that begins
transaction 1, writes under it and commits, the never-issued id 2 has no
undo log, and rolling 2 back changes nothing and reports no error. -/
theorem stale_txn_finish_noop_example :
    (runDbCalls [DbCall.begin, DbCall.set 1 1 5, DbCall.commit 1]
        SimpleDBReadUncommitted.init).txnUndoOps 2 = none ∧
    ((runDbCalls [DbCall.begin, DbCall.set 1 1 5, DbCall.commit 1]
        SimpleDBReadUncommitted.init).Rollback 2).2 = none ∧
    ((runDbCalls [DbCall.begin, DbCall.set 1 1 5, DbCall.commit 1]
        SimpleDBReadUncommitted.init).Rollback 2).1.data =
      (runDbCalls [DbCall.begin, DbCall.set 1 1 5, DbCall.commit 1]
        SimpleDBReadUncommitted.init).data := by
  have habs := stale_txn_finish_noop.1 [DbCall.begin, DbCall.set 1 1 5, DbCall.commit 1] 2
    (by decide) (Or.inr (by decide))
  have h2 := stale_txn_finish_noop.2.1
    (runDbCalls [DbCall.begin, DbCall.set 1 1 5, DbCall.commit 1]
      SimpleDBReadUncommitted.init) 2 habs
  exact ⟨habs, h2.2.2.1, h2.2.2.2⟩

/-- Shape of every normal executor step: it only advances the chosen
worker's program counter by one (never touching its operation list or the
other workers), and it never creates a barrier that was not registered. -/
theorem workerStep_ok_shape {σ : Type} (S : StoreOps σ) (c : ExecConfig σ) (i : Nat)
    (c' : ExecConfig σ) (lg : Bool)
    (h : workerStep S c i = some (StepOut.ok c' lg)) :
    ∃ w w', c.workers[i]? = some w ∧ w.pc < w.ops.length ∧
      c'.workers = c.workers.set i w' ∧
      w'.pc = w.pc + 1 ∧ w'.ops = w.ops ∧ w'.name = w.name ∧
      (∀ m : String, c.barriers m = none → c'.barriers m = none) := by
  unfold workerStep at h
  cases hw : c.workers[i]? with
  | none =>
    simp only [hw] at h
    exact Option.noConfusion h
  | some w =>
    cases hop : w.ops[w.pc]? with
    | none =>
      simp only [hw, hop] at h
      exact Option.noConfusion h
    | some op =>
      have hlt : w.pc < w.ops.length := by
        by_contra hge
        push_neg at hge
        rw [List.getElem?_eq_none hge] at hop
        exact Option.noConfusion hop
      cases op with
      | db act =>
        cases act with
        | beginTx =>
          cases hb : (S.beginTx c.store "READ_UNCOMMITTED").2.2 with
          | none =>
            simp only [hw, hop, hb] at h
            injection h with h1; injection h1 with hc hlg
            subst hc
            exact ⟨w, _, rfl, hlt, rfl, rfl, rfl, rfl, fun m hm => hm⟩
          | some msg =>
            simp only [hw, hop, hb] at h
            injection h with h1; injection h1 with hc hlg
            subst hc
            exact ⟨w, _, rfl, hlt, rfl, rfl, rfl, rfl, fun m hm => hm⟩
        | set k v =>
          rcases hcall : S.set c.store w.txnId k v with _ | ⟨s', e⟩
          · simp only [hw, hop, hcall] at h
            exact Option.noConfusion h
          · simp only [hw, hop, hcall] at h
            injection h with h1; injection h1 with hc hlg
            subst hc
            exact ⟨w, _, rfl, hlt, rfl, rfl, rfl, rfl, fun m hm => hm⟩
        | setComputed k f =>
          rcases hcall : S.set c.store w.txnId k (f c.results) with _ | ⟨s', e⟩
          · simp only [hw, hop, hcall] at h
            exact Option.noConfusion h
          · simp only [hw, hop, hcall] at h
            injection h with h1; injection h1 with hc hlg
            subst hc
            exact ⟨w, _, rfl, hlt, rfl, rfl, rfl, rfl, fun m hm => hm⟩
        | get k =>
          cases hb : (S.get c.store w.txnId k).2 with
          | none =>
            simp only [hw, hop, hb] at h
            injection h with h1; injection h1 with hc hlg
            subst hc
            exact ⟨w, _, rfl, hlt, rfl, rfl, rfl, rfl, fun m hm => hm⟩
          | some msg =>
            simp only [hw, hop, hb] at h
            injection h with h1; injection h1 with hc hlg
            subst hc
            exact ⟨w, _, rfl, hlt, rfl, rfl, rfl, rfl, fun m hm => hm⟩
        | del k =>
          rcases hcall : S.del c.store w.txnId k with _ | ⟨s', e⟩
          · simp only [hw, hop, hcall] at h
            exact Option.noConfusion h
          · simp only [hw, hop, hcall] at h
            injection h with h1; injection h1 with hc hlg
            subst hc
            exact ⟨w, _, rfl, hlt, rfl, rfl, rfl, rfl, fun m hm => hm⟩
        | commit =>
          simp only [hw, hop] at h
          injection h with h1; injection h1 with hc hlg
          subst hc
          exact ⟨w, _, rfl, hlt, rfl, rfl, rfl, rfl, fun m hm => hm⟩
        | rollback =>
          simp only [hw, hop] at h
          injection h with h1; injection h1 with hc hlg
          subst hc
          exact ⟨w, _, rfl, hlt, rfl, rfl, rfl, rfl, fun m hm => hm⟩
        | printDbState =>
          simp only [hw, hop] at h
          injection h with h1; injection h1 with hc hlg
          subst hc
          exact ⟨w, _, rfl, hlt, rfl, rfl, rfl, rfl, fun m hm => hm⟩
      | barrier n =>
        cases hb : c.barriers n with
        | none =>
          simp only [hw, hop, hb] at h
          exact StepOut.noConfusion (Option.some.inj h)
        | some b =>
          cases b with
          | false =>
            simp only [hw, hop, hb] at h
            injection h with h1; injection h1 with hc hlg
            subst hc
            refine ⟨w, _, rfl, hlt, rfl, rfl, rfl, rfl, ?_⟩
            intro m hm
            by_cases hmn : m = n
            · subst hmn; rw [hm] at hb; exact Option.noConfusion hb
            · show updF c.barriers n (some true) m = none
              rw [updF_other _ _ _ _ hmn]; exact hm
          | true =>
            simp only [hw, hop, hb] at h
            exact StepOut.noConfusion (Option.some.inj h)
      | waitFor n =>
        cases hb : c.barriers n with
        | none =>
          simp only [hw, hop, hb] at h
          exact Option.noConfusion h
        | some b =>
          cases b with
          | false =>
            simp only [hw, hop, hb] at h
            exact Option.noConfusion h
          | true =>
            simp only [hw, hop, hb] at h
            injection h with h1; injection h1 with hc hlg
            subst hc
            exact ⟨w, _, rfl, hlt, rfl, rfl, rfl, rfl, fun m hm => hm⟩
      | waitForWithTimeout n =>
        simp only [hw, hop, timedWaitReturns, if_true] at h
        injection h with h1; injection h1 with hc hlg
        subst hc
        exact ⟨w, _, rfl, hlt, rfl, rfl, rfl, rfl, fun m hm => hm⟩

/-- Updating slot `i` of a list makes `i` read back the new element. -/
theorem getElem?_set_self {α : Type} (l : List α) (i : Nat) (a : α)
    (hlt : i < l.length) : (l.set i a)[i]? = some a := by
  simp [List.getElem?_set, hlt]

/-- Updating slot `i` of a list leaves every other slot unchanged. -/
theorem getElem?_set_other {α : Type} (l : List α) (i j : Nat) (a : α)
    (h : j ≠ i) : (l.set i a)[j]? = l[j]? := by
  simp [List.getElem?_set, (Ne.symm h : i ≠ j)]

/-- C3.  Barriers are one-shot: once barrier `n` is signaled, a worker
whose next operation signals `n` again panics (`close` of a closed
channel) rather than being silently ignored, a worker whose next
operation waits on `n` steps immediately without blocking, and a signal
step can only succeed from the unsignaled state, which it leaves signaled
— so `signal` succeeds at most once per name across all workers. -/
theorem barrier_signal_once_wait_after {σ : Type} (S : StoreOps σ)
    (c : ExecConfig σ) (i : Nat) (w : WorkerSt) (n : String)
    (hw : c.workers[i]? = some w) :
    (c.barriers n = some true → w.ops[w.pc]? = some (Op.barrier n) →
        workerStep S c i = some StepOut.fatal) ∧
    (c.barriers n = some true → w.ops[w.pc]? = some (Op.waitFor n) →
        workerStep S c i = some (StepOut.ok (advance c i w) false)) ∧
    (∀ (c' : ExecConfig σ) (lg : Bool),
        w.ops[w.pc]? = some (Op.barrier n) →
        workerStep S c i = some (StepOut.ok c' lg) →
        c.barriers n = some false ∧ c'.barriers n = some true) := by
  refine ⟨?_, ?_, ?_⟩
  · intro hb hop
    unfold workerStep
    simp only [hw, hop, hb]
  · intro hb hop
    unfold workerStep
    simp only [hw, hop, hb]
  · intro c' lg hop hstep
    unfold workerStep at hstep
    cases hb : c.barriers n with
    | none =>
      simp only [hw, hop, hb] at hstep
      exact StepOut.noConfusion (Option.some.inj hstep)
    | some b =>
      cases b with
      | true =>
        simp only [hw, hop, hb] at hstep
        exact StepOut.noConfusion (Option.some.inj hstep)
      | false =>
        simp only [hw, hop, hb] at hstep
        injection hstep with h1; injection h1 with hc hlg
        subst hc
        exact ⟨rfl, updF_same _ _ _⟩

/-- Witness for `barrier_signal_once_wait_after`: with barrier `b`
already signaled, worker 0's second signal of `b` is fatal while worker
1's wait on `b` proceeds immediately. -/
theorem barrier_signal_once_wait_after_example :
    workerStep failStoreOps signaledTwice 0 = some StepOut.fatal ∧
    workerStep failStoreOps signaledTwice 1 =
      some (StepOut.ok (advance signaledTwice 1
        { name := "w2", txnId := 0, ops := [Op.waitFor "b"], pc := 0 }) false) := by
  constructor
  · exact (barrier_signal_once_wait_after failStoreOps signaledTwice 0
      { name := "w1", txnId := 0, ops := [Op.barrier "b"], pc := 0 } "b" rfl).1 rfl rfl
  · exact (barrier_signal_once_wait_after failStoreOps signaledTwice 1
      { name := "w2", txnId := 0, ops := [Op.waitFor "b"], pc := 0 } "b" rfl).2.1 rfl rfl

/-- C7.  A database operation, whenever its store call returns (with or
without an error), never aborts the script: the step is never fatal, the
worker's program counter advances by exactly one with its operation list
intact (so every subsequent operation still executes), the other workers
are untouched, and for the always-returning calls the logged flag is
exactly whether the call returned an error. -/
theorem store_error_logged_and_continues {σ : Type} (S : StoreOps σ)
    (c : ExecConfig σ) (i : Nat) (w : WorkerSt) (act : DbAct) (out : StepOut σ)
    (hw : c.workers[i]? = some w)
    (hop : w.ops[w.pc]? = some (Op.db act))
    (hstep : workerStep S c i = some out) :
    ∃ c' lg, out = StepOut.ok c' lg ∧
      (∃ w', c'.workers[i]? = some w' ∧ w'.pc = w.pc + 1 ∧
        w'.ops = w.ops ∧ w'.name = w.name) ∧
      (∀ j : Nat, j ≠ i → c'.workers[j]? = c.workers[j]?) ∧
      (act = DbAct.commit → lg = (S.commit c.store w.txnId).2.isSome) ∧
      (act = DbAct.rollback → lg = (S.rollback c.store w.txnId).2.isSome) := by
  have hilen : i < c.workers.length := by
    by_contra hge
    push_neg at hge
    rw [List.getElem?_eq_none hge] at hw
    exact Option.noConfusion hw
  unfold workerStep at hstep
  cases act with
  | beginTx =>
    cases hb : (S.beginTx c.store "READ_UNCOMMITTED").2.2 with
    | none =>
      simp only [hw, hop, hb] at hstep
      refine ⟨_, _, (Option.some.inj hstep).symm, ⟨_, getElem?_set_self _ _ _ hilen, rfl, rfl, rfl⟩,
        fun j hj => getElem?_set_other _ _ _ _ hj, ?_, ?_⟩ <;>
        (intro hact; exact DbAct.noConfusion hact)
    | some msg =>
      simp only [hw, hop, hb] at hstep
      refine ⟨_, _, (Option.some.inj hstep).symm, ⟨_, getElem?_set_self _ _ _ hilen, rfl, rfl, rfl⟩,
        fun j hj => getElem?_set_other _ _ _ _ hj, ?_, ?_⟩ <;>
        (intro hact; exact DbAct.noConfusion hact)
  | set k v =>
    rcases hcall : S.set c.store w.txnId k v with _ | ⟨s', e⟩
    · simp only [hw, hop, hcall] at hstep
      exact Option.noConfusion hstep
    · simp only [hw, hop, hcall] at hstep
      refine ⟨_, _, (Option.some.inj hstep).symm, ⟨_, getElem?_set_self _ _ _ hilen, rfl, rfl, rfl⟩,
        fun j hj => getElem?_set_other _ _ _ _ hj, ?_, ?_⟩ <;>
        (intro hact; exact DbAct.noConfusion hact)
  | setComputed k f =>
    rcases hcall : S.set c.store w.txnId k (f c.results) with _ | ⟨s', e⟩
    · simp only [hw, hop, hcall] at hstep
      exact Option.noConfusion hstep
    · simp only [hw, hop, hcall] at hstep
      refine ⟨_, _, (Option.some.inj hstep).symm, ⟨_, getElem?_set_self _ _ _ hilen, rfl, rfl, rfl⟩,
        fun j hj => getElem?_set_other _ _ _ _ hj, ?_, ?_⟩ <;>
        (intro hact; exact DbAct.noConfusion hact)
  | get k =>
    cases hb : (S.get c.store w.txnId k).2 with
    | none =>
      simp only [hw, hop, hb] at hstep
      refine ⟨_, _, (Option.some.inj hstep).symm, ⟨_, getElem?_set_self _ _ _ hilen, rfl, rfl, rfl⟩,
        fun j hj => getElem?_set_other _ _ _ _ hj, ?_, ?_⟩ <;>
        (intro hact; exact DbAct.noConfusion hact)
    | some msg =>
      simp only [hw, hop, hb] at hstep
      refine ⟨_, _, (Option.some.inj hstep).symm, ⟨_, getElem?_set_self _ _ _ hilen, rfl, rfl, rfl⟩,
        fun j hj => getElem?_set_other _ _ _ _ hj, ?_, ?_⟩ <;>
        (intro hact; exact DbAct.noConfusion hact)
  | del k =>
    rcases hcall : S.del c.store w.txnId k with _ | ⟨s', e⟩
    · simp only [hw, hop, hcall] at hstep
      exact Option.noConfusion hstep
    · simp only [hw, hop, hcall] at hstep
      refine ⟨_, _, (Option.some.inj hstep).symm, ⟨_, getElem?_set_self _ _ _ hilen, rfl, rfl, rfl⟩,
        fun j hj => getElem?_set_other _ _ _ _ hj, ?_, ?_⟩ <;>
        (intro hact; exact DbAct.noConfusion hact)
  | commit =>
    simp only [hw, hop] at hstep
    refine ⟨_, _, (Option.some.inj hstep).symm, ⟨_, getElem?_set_self _ _ _ hilen, rfl, rfl, rfl⟩,
      fun j hj => getElem?_set_other _ _ _ _ hj, fun _ => rfl, ?_⟩
    intro hact; exact DbAct.noConfusion hact
  | rollback =>
    simp only [hw, hop] at hstep
    refine ⟨_, _, (Option.some.inj hstep).symm, ⟨_, getElem?_set_self _ _ _ hilen, rfl, rfl, rfl⟩,
      fun j hj => getElem?_set_other _ _ _ _ hj, ?_, fun _ => rfl⟩
    intro hact; exact DbAct.noConfusion hact
  | printDbState =>
    simp only [hw, hop] at hstep
    refine ⟨_, _, (Option.some.inj hstep).symm, ⟨_, getElem?_set_self _ _ _ hilen, rfl, rfl, rfl⟩,
      fun j hj => getElem?_set_other _ _ _ _ hj, ?_, ?_⟩ <;>
      (intro hact; exact DbAct.noConfusion hact)

/-- Witness for `store_error_logged_and_continues`: a worker running
`Commit` against the always-failing store logs the error (`lg = true`)
and still advances to its next operation. -/
theorem store_error_logged_and_continues_example :
    ∃ (out : StepOut Unit),
      workerStep failStoreOps
        (initExecConfig () [⟨"t", 0, [Op.db DbAct.commit, Op.db DbAct.rollback], 0⟩]) 0 =
          some out ∧
      ∃ c' lg, out = StepOut.ok c' lg ∧ lg = true ∧
        ∃ w', c'.workers[0]? = some w' ∧ w'.pc = 1 ∧
          w'.ops = [Op.db DbAct.commit, Op.db DbAct.rollback] := by
  have hs : (workerStep failStoreOps
      (initExecConfig () [⟨"t", 0, [Op.db DbAct.commit, Op.db DbAct.rollback], 0⟩]) 0).isSome =
        true := rfl
  refine ⟨_, (Option.some_get hs).symm, ?_⟩
  obtain ⟨c', lg, hout, ⟨w', hw', hpc, hops, _⟩, _, hcommit, _⟩ :=
    store_error_logged_and_continues failStoreOps
      (initExecConfig () [⟨"t", 0, [Op.db DbAct.commit, Op.db DbAct.rollback], 0⟩]) 0
      ⟨"t", 0, [Op.db DbAct.commit, Op.db DbAct.rollback], 0⟩
      DbAct.commit _ rfl rfl (Option.some_get hs).symm
  exact ⟨c', lg, hout, (hcommit rfl).trans rfl, w', hw', hpc, hops⟩

/-- If every call of a store returns a nil error, the executor's
error-logging branch never runs: every normal step has `logged = false`. -/
theorem errorFree_no_log {σ : Type} (S : StoreOps σ)
    (hBegin : ∀ s iso, (S.beginTx s iso).2.2 = none)
    (hSet : ∀ s t k v r, S.set s t k v = some r → r.2 = none)
    (hGet : ∀ s t k, (S.get s t k).2 = none)
    (hDel : ∀ s t k r, S.del s t k = some r → r.2 = none)
    (hCommit : ∀ s t, (S.commit s t).2 = none)
    (hRollback : ∀ s t, (S.rollback s t).2 = none) :
    ∀ (c : ExecConfig σ) (i : Nat) (c' : ExecConfig σ) (lg : Bool),
      workerStep S c i = some (StepOut.ok c' lg) → lg = false := by
  intro c i c' lg h
  unfold workerStep at h
  cases hw : c.workers[i]? with
  | none =>
    simp only [hw] at h
    exact Option.noConfusion h
  | some w =>
    cases hop : w.ops[w.pc]? with
    | none =>
      simp only [hw, hop] at h
      exact Option.noConfusion h
    | some op =>
      cases op with
      | db act =>
        cases act with
        | beginTx =>
          cases hb : (S.beginTx c.store "READ_UNCOMMITTED").2.2 with
          | none =>
            simp only [hw, hop, hb] at h
            injection h with h1; injection h1 with hc hlg
            exact hlg.symm
          | some msg =>
            rw [hBegin c.store "READ_UNCOMMITTED"] at hb
            exact Option.noConfusion hb
        | set k v =>
          rcases hcall : S.set c.store w.txnId k v with _ | ⟨s', e⟩
          · simp only [hw, hop, hcall] at h
            exact Option.noConfusion h
          · simp only [hw, hop, hcall] at h
            injection h with h1; injection h1 with hc hlg
            have he : e = none := hSet _ _ _ _ _ hcall
            rw [he] at hlg
            exact hlg.symm
        | setComputed k f =>
          rcases hcall : S.set c.store w.txnId k (f c.results) with _ | ⟨s', e⟩
          · simp only [hw, hop, hcall] at h
            exact Option.noConfusion h
          · simp only [hw, hop, hcall] at h
            injection h with h1; injection h1 with hc hlg
            have he : e = none := hSet _ _ _ _ _ hcall
            rw [he] at hlg
            exact hlg.symm
        | get k =>
          cases hb : (S.get c.store w.txnId k).2 with
          | none =>
            simp only [hw, hop, hb] at h
            injection h with h1; injection h1 with hc hlg
            exact hlg.symm
          | some msg =>
            rw [hGet c.store w.txnId k] at hb
            exact Option.noConfusion hb
        | del k =>
          rcases hcall : S.del c.store w.txnId k with _ | ⟨s', e⟩
          · simp only [hw, hop, hcall] at h
            exact Option.noConfusion h
          · simp only [hw, hop, hcall] at h
            injection h with h1; injection h1 with hc hlg
            have he : e = none := hDel _ _ _ _ hcall
            rw [he] at hlg
            exact hlg.symm
        | commit =>
          simp only [hw, hop] at h
          injection h with h1; injection h1 with hc hlg
          rw [hCommit c.store w.txnId] at hlg
          exact hlg.symm
        | rollback =>
          simp only [hw, hop] at h
          injection h with h1; injection h1 with hc hlg
          rw [hRollback c.store w.txnId] at hlg
          exact hlg.symm
        | printDbState =>
          simp only [hw, hop] at h
          injection h with h1; injection h1 with hc hlg
          exact hlg.symm
      | barrier n =>
        cases hb : c.barriers n with
        | none =>
          simp only [hw, hop, hb] at h
          exact StepOut.noConfusion (Option.some.inj h)
        | some b =>
          cases b with
          | false =>
            simp only [hw, hop, hb] at h
            injection h with h1; injection h1 with hc hlg
            exact hlg.symm
          | true =>
            simp only [hw, hop, hb] at h
            exact StepOut.noConfusion (Option.some.inj h)
      | waitFor n =>
        cases hb : c.barriers n with
        | none =>
          simp only [hw, hop, hb] at h
          exact Option.noConfusion h
        | some b =>
          cases b with
          | false =>
            simp only [hw, hop, hb] at h
            exact Option.noConfusion h
          | true =>
            simp only [hw, hop, hb] at h
            injection h with h1; injection h1 with hc hlg
            exact hlg.symm
      | waitForWithTimeout n =>
        simp only [hw, hop, timedWaitReturns, if_true] at h
        injection h with h1; injection h1 with hc hlg
        exact hlg.symm

/-- Every `Set` of the row-locked store that returns at all returns a nil
error. -/
theorem wlSet_err {d : SimpleDBReadUncommittedWriteLock} {t k v : Int}
    {r : SimpleDBReadUncommittedWriteLock × Option String}
    (h : d.Set t k v = some r) : r.2 = none := by
  unfold SimpleDBReadUncommittedWriteLock.Set at h
  rw [Option.map_eq_some'] at h
  obtain ⟨d1, _, hval⟩ := h
  rw [← hval]

/-- Every `Delete` of the row-locked store that returns at all returns a
nil error. -/
theorem wlDel_err {d : SimpleDBReadUncommittedWriteLock} {t k : Int}
    {r : SimpleDBReadUncommittedWriteLock × Option String}
    (h : d.Delete t k = some r) : r.2 = none := by
  unfold SimpleDBReadUncommittedWriteLock.Delete at h
  rw [Option.map_eq_some'] at h
  obtain ⟨d1, _, hval⟩ := h
  rw [← hval]

/-- C9.  Every operation of both canonical integer-keyed store variants
returns a nil error for every input (for the row-locked store's blocking
`Set`/`Delete`: whenever the call returns), so the executor's
error-logging branch is unreachable when it runs against either store:
every normal step of `workerStep` carries `logged = false`. -/
theorem store_ops_never_error :
    (∀ (d : SimpleDBReadUncommitted) (iso : String) (t k v : Int),
      (d.BeginTx iso).2.2 = none ∧ (d.Set t k v).2 = none ∧ (d.Get t k).2 = none ∧
      (d.Delete t k).2 = none ∧ (d.Commit t).2 = none ∧ (d.Rollback t).2 = none) ∧
    (∀ (d : SimpleDBReadUncommittedWriteLock) (iso : String) (t k v : Int),
      (d.BeginTx iso).2.2 = none ∧
      (∀ r, d.Set t k v = some r → r.2 = none) ∧
      (d.Get t k).2 = none ∧
      (∀ r, d.Delete t k = some r → r.2 = none) ∧
      (d.Commit t).2 = none ∧ (d.Rollback t).2 = none) ∧
    (∀ (c : ExecConfig SimpleDBReadUncommitted) (i : Nat) c' (lg : Bool),
      workerStep storeOpsRU c i = some (StepOut.ok c' lg) → lg = false) ∧
    (∀ (c : ExecConfig SimpleDBReadUncommittedWriteLock) (i : Nat) c' (lg : Bool),
      workerStep storeOpsWL c i = some (StepOut.ok c' lg) → lg = false) := by
  refine ⟨?_, ?_, ?_, ?_⟩
  · intro d iso t k v
    exact ⟨rfl, rfl, rfl, rfl, rfl, rfl⟩
  · intro d iso t k v
    exact ⟨rfl, fun r h => wlSet_err h, rfl, fun r h => wlDel_err h, rfl, rfl⟩
  · exact errorFree_no_log storeOpsRU (fun s iso => rfl)
      (fun s t k v r h => by
        have hr : s.Set t k v = r := Option.some.inj h
        subst hr
        rfl)
      (fun s t k => rfl)
      (fun s t k r h => by
        have hr : s.Delete t k = r := Option.some.inj h
        subst hr
        rfl)
      (fun s t => rfl) (fun s t => rfl)
  · exact errorFree_no_log storeOpsWL (fun s iso => rfl)
      (fun s t k v r h => wlSet_err h)
      (fun s t k => rfl)
      (fun s t k r h => wlDel_err h)
      (fun s t => rfl) (fun s t => rfl)

/-- Witness for `store_ops_never_error`: a concrete step of each store's
executor — worker 0 committing — has its logging flag down, and concrete
calls return nil errors. -/
theorem store_ops_never_error_example :
    (SimpleDBReadUncommitted.init.Set 1 1 5).2 = none ∧
    (∃ r, SimpleDBReadUncommittedWriteLock.init.Set 1 1 5 = some r ∧ r.2 = none) ∧
    (∃ out : StepOut SimpleDBReadUncommitted,
      workerStep storeOpsRU
        (initExecConfig SimpleDBReadUncommitted.init
          [⟨"t", 0, [Op.db DbAct.commit], 0⟩]) 0 = some out ∧
      ∀ c' lg, out = StepOut.ok c' lg → lg = false) := by
  refine ⟨(store_ops_never_error.1 SimpleDBReadUncommitted.init "x" 1 1 5).2.1, ?_, ?_⟩
  · have hs : (SimpleDBReadUncommittedWriteLock.init.Set 1 1 5).isSome = true := rfl
    refine ⟨_, (Option.some_get hs).symm, ?_⟩
    exact (store_ops_never_error.2.1 SimpleDBReadUncommittedWriteLock.init "x" 1 1 5).2.1
      _ (Option.some_get hs).symm
  · have hs : (workerStep storeOpsRU
        (initExecConfig SimpleDBReadUncommitted.init
          [⟨"t", 0, [Op.db DbAct.commit], 0⟩]) 0).isSome = true := rfl
    refine ⟨_, (Option.some_get hs).symm, ?_⟩
    intro c' lg hout
    exact store_ops_never_error.2.2.1 _ 0 c' lg (by rw [← Option.some_get hs, hout])

/-- A script with no signal of `n` leaves the barrier table unchanged at
`n` during the pre-scan. -/
theorem collectBarriers_no_signal (n : String) (ops : List Op) :
    ∀ b : String → Option Bool, ops.any (opSignals n) = false →
      collectBarriers ops b n = b n := by
  induction ops with
  | nil => intro b _; rfl
  | cons op rest ih =>
    intro b hno
    rw [List.any_cons, Bool.or_eq_false_iff] at hno
    cases op with
    | barrier m =>
      have hm : (m == n) = false := hno.1
      rw [beq_eq_false_iff_ne] at hm
      have hc : collectBarriers (Op.barrier m :: rest) b =
          collectBarriers rest (updF b m (some false)) := rfl
      rw [hc, ih _ hno.2]
      exact updF_other _ _ _ _ (Ne.symm hm)
    | db act =>
      have hc : collectBarriers (Op.db act :: rest) b = collectBarriers rest b := rfl
      rw [hc, ih _ hno.2]
    | waitFor m =>
      have hc : collectBarriers (Op.waitFor m :: rest) b = collectBarriers rest b := rfl
      rw [hc, ih _ hno.2]
    | waitForWithTimeout m =>
      have hc : collectBarriers (Op.waitForWithTimeout m :: rest) b =
          collectBarriers rest b := rfl
      rw [hc, ih _ hno.2]

/-- A script that signals `n` registers `n` as an open barrier. -/
theorem collectBarriers_signals (n : String) (ops : List Op) :
    ∀ b : String → Option Bool, ops.any (opSignals n) = true →
      collectBarriers ops b n = some false := by
  induction ops with
  | nil => intro b h; exact absurd h (by simp)
  | cons op rest ih =>
    intro b hyes
    cases hrest : rest.any (opSignals n) with
    | true =>
      cases op with
      | barrier m =>
        have hc : collectBarriers (Op.barrier m :: rest) b =
            collectBarriers rest (updF b m (some false)) := rfl
        rw [hc]; exact ih _ hrest
      | db act => exact ih _ hrest
      | waitFor m => exact ih _ hrest
      | waitForWithTimeout m => exact ih _ hrest
    | false =>
      rw [List.any_cons, hrest, Bool.or_false] at hyes
      cases op with
      | barrier m =>
        have hm : m = n := eq_of_beq (by simpa [opSignals] using hyes)
        subst hm
        have hc : collectBarriers (Op.barrier m :: rest) b =
            collectBarriers rest (updF b m (some false)) := rfl
        rw [hc, collectBarriers_no_signal m rest _ hrest]
        exact updF_same _ _ _
      | db act => exact absurd hyes (by simp [opSignals])
      | waitFor m => exact absurd hyes (by simp [opSignals])
      | waitForWithTimeout m => exact absurd hyes (by simp [opSignals])

/-- The pre-scan over all scripts: a name signaled by some script is
registered open; a name signaled by none stays unregistered. -/
theorem registerBarriers_spec (n : String) (ws : List WorkerSt) :
    (scriptsSignal ws n = true → registerBarriers ws n = some false) ∧
    (scriptsSignal ws n = false → registerBarriers ws n = none) := by
  have main : ∀ (l : List WorkerSt) (b : String → Option Bool),
      (l.foldl (fun b w => collectBarriers w.ops b) b n =
        if l.any (fun w => w.ops.any (opSignals n)) then some false else b n) := by
    intro l
    induction l with
    | nil => intro b; simp
    | cons w rest ih =>
      intro b
      rw [List.foldl_cons, ih, List.any_cons]
      cases hw : w.ops.any (opSignals n) with
      | true =>
        rw [collectBarriers_signals n w.ops b hw]
        simp
      | false =>
        rw [collectBarriers_no_signal n w.ops b hw]
        simp
  constructor
  · intro h
    unfold registerBarriers scriptsSignal at *
    rw [main, h]
    rfl
  · intro h
    unfold registerBarriers scriptsSignal at *
    rw [main, h]
    rfl

/-- A worker whose next operation waits on an unregistered barrier (a nil
channel) cannot take a step. -/
theorem waitFor_unregistered_blocked {σ : Type} (S : StoreOps σ)
    (c : ExecConfig σ) (i : Nat) (w : WorkerSt) (n : String)
    (hw : c.workers[i]? = some w)
    (hop : w.ops[w.pc]? = some (Op.waitFor n))
    (hb : c.barriers n = none) :
    workerStep S c i = none := by
  unfold workerStep
  simp only [hw, hop, hb]

/-- Along any valid schedule, a worker stuck on an unregistered barrier
stays stuck: the barrier never appears, and the worker never advances
past the wait. -/
theorem run_keeps_waiting {σ : Type} (S : StoreOps σ) (n : String) (i j : Nat) :
    ∀ (sched : List Nat) (c c' : ExecConfig σ),
      run S sched c = some c' →
      c.barriers n = none →
      (∃ w, c.workers[i]? = some w ∧ w.ops[j]? = some (Op.waitFor n) ∧ w.pc ≤ j) →
      c'.barriers n = none ∧
      ∃ w', c'.workers[i]? = some w' ∧ w'.ops[j]? = some (Op.waitFor n) ∧ w'.pc ≤ j := by
  intro sched
  induction sched with
  | nil =>
    intro c c' hrun hb hwait
    have : c = c' := Option.some.inj hrun
    subst this
    exact ⟨hb, hwait⟩
  | cons i' rest ih =>
    intro c c' hrun hb hwait
    obtain ⟨w, hw, hopj, hpcle⟩ := hwait
    unfold run at hrun
    cases hstep : workerStep S c i' with
    | none => rw [hstep] at hrun; exact Option.noConfusion hrun
    | some out =>
      rw [hstep] at hrun
      cases out with
      | fatal => exact Option.noConfusion hrun
      | ok c1 lg =>
        obtain ⟨w1, w1', hw1, hlt1, hset, hpc', hops', hname', hbpres⟩ :=
          workerStep_ok_shape S c i' c1 lg hstep
        have hb1 : c1.barriers n = none := hbpres n hb
        by_cases hii : i' = i
        · subst hii
          have hww : w1 = w := by
            rw [hw] at hw1
            exact (Option.some.inj hw1).symm
          subst hww
          have hpclt : w1.pc < j := by
            rcases Nat.lt_or_ge w1.pc j with hlt | hge
            · exact hlt
            · have hpceq : w1.pc = j := le_antisymm hpcle hge
              rw [← hpceq] at hopj
              have hblocked := waitFor_unregistered_blocked S c i' w1 n hw hopj hb
              rw [hblocked] at hstep
              exact Option.noConfusion hstep
          have hilen : i' < c.workers.length := by
            by_contra hge
            push_neg at hge
            rw [List.getElem?_eq_none hge] at hw
            exact Option.noConfusion hw
          refine ih c1 c' hrun hb1 ⟨w1', ?_, ?_, ?_⟩
          · rw [hset]
            exact getElem?_set_self _ _ _ hilen
          · rw [hops']
            exact hopj
          · omega
        · refine ih c1 c' hrun hb1 ⟨w, ?_, hopj, hpcle⟩
          rw [hset]
          rw [getElem?_set_other _ _ _ _ (Ne.symm hii)]
          exact hw

/-- C6.  The executor's pre-scan registers a barrier for every name that
appears as a signal in any script, before any worker starts; a name that
no script ever signals stays unregistered, a wait on it is a nil-channel
receive that can never take a step, and along every valid schedule the
waiting worker never advances, so `Execute` can never complete — the
unrecoverable condition that surfaces as Go's fatal all-goroutines-asleep
deadlock abort, never as silent acceptance. -/
theorem unsignaled_wait_never_proceeds :
    (∀ (σ : Type) (s0 : σ) (ws : List WorkerSt) (n : String),
        scriptsSignal ws n = true → (initExecConfig s0 ws).barriers n = some false) ∧
    (∀ (σ : Type) (s0 : σ) (ws : List WorkerSt) (n : String),
        scriptsSignal ws n = false → (initExecConfig s0 ws).barriers n = none) ∧
    (∀ (σ : Type) (S : StoreOps σ) (c : ExecConfig σ) (i : Nat) (w : WorkerSt) (n : String),
        c.workers[i]? = some w → w.ops[w.pc]? = some (Op.waitFor n) →
        c.barriers n = none → workerStep S c i = none) ∧
    (∀ (σ : Type) (S : StoreOps σ) (s0 : σ) (ws : List WorkerSt) (n : String)
        (i j : Nat) (w : WorkerSt) (sched : List Nat) (c : ExecConfig σ),
        scriptsSignal ws n = false →
        ws[i]? = some w → w.ops[j]? = some (Op.waitFor n) → w.pc ≤ j →
        run S sched (initExecConfig s0 ws) = some c →
        allDoneB c = false) := by
  refine ⟨?_, ?_, ?_, ?_⟩
  · intro σ s0 ws n h
    exact (registerBarriers_spec n ws).1 h
  · intro σ s0 ws n h
    exact (registerBarriers_spec n ws).2 h
  · intro σ S c i w n hw hop hb
    exact waitFor_unregistered_blocked S c i w n hw hop hb
  · intro σ S s0 ws n i j w sched c hno hwi hopj hpcle hrun
    have hb0 : (initExecConfig s0 ws).barriers n = none :=
      (registerBarriers_spec n ws).2 hno
    obtain ⟨-, w', hw', hopj', hpcle'⟩ :=
      run_keeps_waiting S n i j sched (initExecConfig s0 ws) c hrun hb0
        ⟨w, hwi, hopj, hpcle⟩
    have hjlt : j < w'.ops.length := by
      by_contra hge
      push_neg at hge
      rw [List.getElem?_eq_none hge] at hopj'
      exact Option.noConfusion hopj'
    rw [allDoneB]
    rw [List.all_eq_false]
    refine ⟨w', List.getElem?_mem hw', ?_⟩
    have hlt : ¬ (w'.ops.length ≤ w'.pc) := by omega
    simpa using hlt

/-- Witness for `unsignaled_wait_never_proceeds`: a single worker waiting
on the never-signaled name `never` leaves the barrier unregistered, is
immediately stuck, and the empty execution has not completed. -/
theorem unsignaled_wait_never_proceeds_example :
    (initExecConfig () [⟨"w1", 0, [Op.waitFor "never"], 0⟩] : ExecConfig Unit).barriers
        "never" = none ∧
    workerStep failStoreOps
      (initExecConfig () [⟨"w1", 0, [Op.waitFor "never"], 0⟩]) 0 = none ∧
    allDoneB (initExecConfig () [⟨"w1", 0, [Op.waitFor "never"], 0⟩] : ExecConfig Unit) =
      false := by
  have hreg : (initExecConfig () [⟨"w1", 0, [Op.waitFor "never"], 0⟩] :
      ExecConfig Unit).barriers "never" = none :=
    unsignaled_wait_never_proceeds.2.1 Unit () [⟨"w1", 0, [Op.waitFor "never"], 0⟩]
      "never" rfl
  refine ⟨hreg, ?_, ?_⟩
  · exact unsignaled_wait_never_proceeds.2.2.1 Unit failStoreOps _ 0
      ⟨"w1", 0, [Op.waitFor "never"], 0⟩ "never" rfl rfl hreg
  · exact unsignaled_wait_never_proceeds.2.2.2 Unit failStoreOps ()
      [⟨"w1", 0, [Op.waitFor "never"], 0⟩] "never" 0 0
      ⟨"w1", 0, [Op.waitFor "never"], 0⟩ [] _ rfl rfl rfl (le_refl 0) rfl

/-- Effect of `Set` when the caller holds nothing on `key` and the row
lock is free: the lock is taken, the key recorded, the value written, the
pre-image logged. -/
theorem wlSet_free (d : SimpleDBReadUncommittedWriteLock) (t k v : Int)
    (hH : d.heldBy t k = false) (hR : d.rowLocks k = false) :
    d.Set t k v =
      some ({ data := updF d.data k (some v)
              nextTxnId := d.nextTxnId
              txnUndoOps := updF d.txnUndoOps t
                (some ((d.txnUndoOps t).getD [] ++ [d.preImage k]))
              rowLocks := fun k' => if k' = k then true else d.rowLocks k'
              txnHeldLocks := updF d.txnHeldLocks t
                (some (fun k' => if k' = k then true else d.heldBy t k')) }, none) := by
  unfold SimpleDBReadUncommittedWriteLock.Set SimpleDBReadUncommittedWriteLock.acquireRowLock
  rw [hH, hR]
  rfl

/-- A `Set` whose row lock is held by another transaction blocks. -/
theorem wlSet_blocked (d : SimpleDBReadUncommittedWriteLock) (t k v : Int)
    (hH : d.heldBy t k = false) (hR : d.rowLocks k = true) :
    d.Set t k v = none := by
  unfold SimpleDBReadUncommittedWriteLock.Set SimpleDBReadUncommittedWriteLock.acquireRowLock
  rw [hH, hR]
  rfl

/-- Effect of `Commit`: all row locks held by the transaction are freed,
its held set and undo log dropped. -/
theorem wlCommit_eq (d : SimpleDBReadUncommittedWriteLock) (t : Int) :
    d.Commit t =
      ({ data := d.data
         nextTxnId := d.nextTxnId
         txnUndoOps := updF d.txnUndoOps t none
         rowLocks := fun k => if d.heldBy t k then false else d.rowLocks k
         txnHeldLocks := updF d.txnHeldLocks t none }, none) := rfl

/-- Effect of `BeginTx` on the row-locked store. -/
theorem wlBeginTx_eq (d : SimpleDBReadUncommittedWriteLock) (iso : String) :
    d.BeginTx iso =
      ({ data := d.data
         nextTxnId := d.nextTxnId + 1
         txnUndoOps := updF d.txnUndoOps d.nextTxnId (some [])
         rowLocks := d.rowLocks
         txnHeldLocks := d.txnHeldLocks }, d.nextTxnId, none) := rfl

/-- `heldBy` after overwriting the transaction's own held set. -/
theorem heldBy_updF_same (d : SimpleDBReadUncommittedWriteLock) (t : Int)
    (s : Int → Bool) (k : Int) :
    SimpleDBReadUncommittedWriteLock.heldBy
      { d with txnHeldLocks := updF d.txnHeldLocks t (some s) } t k = s k := by
  simp [SimpleDBReadUncommittedWriteLock.heldBy, updF]

/-- `heldBy` after dropping the transaction's held set. -/
theorem heldBy_updF_none (d : SimpleDBReadUncommittedWriteLock) (t : Int) (k : Int) :
    SimpleDBReadUncommittedWriteLock.heldBy
      { d with txnHeldLocks := updF d.txnHeldLocks t none } t k = false := by
  simp [SimpleDBReadUncommittedWriteLock.heldBy, updF]

/-- `heldBy` of a different transaction is unaffected by an update to
this one's held set. -/
theorem heldBy_updF_other (d : SimpleDBReadUncommittedWriteLock) (t t' : Int)
    (v : Option (Int → Bool)) (k : Int) (h : t' ≠ t) :
    SimpleDBReadUncommittedWriteLock.heldBy
      { d with txnHeldLocks := updF d.txnHeldLocks t v } t' k = d.heldBy t' k := by
  simp [SimpleDBReadUncommittedWriteLock.heldBy, updF, h]

/-- `heldBy` reads the held-locks table through `heldOf`. -/
theorem heldBy_def (d : SimpleDBReadUncommittedWriteLock) (t k : Int) :
    d.heldBy t k = heldOf d.txnHeldLocks t k := rfl

theorem heldOf_updF_same (m : Int → Option (Int → Bool)) (t : Int) (s : Int → Bool)
    (k : Int) : heldOf (updF m t (some s)) t k = s k := by
  simp [heldOf, updF]

theorem heldOf_updF_none (m : Int → Option (Int → Bool)) (t k : Int) :
    heldOf (updF m t none) t k = false := by
  simp [heldOf, updF]

theorem heldOf_updF_other (m : Int → Option (Int → Bool)) (t t' : Int)
    (v : Option (Int → Bool)) (k : Int) (h : t' ≠ t) :
    heldOf (updF m t v) t' k = heldOf m t' k := by
  simp [heldOf, updF, h]

set_option maxHeartbeats 1000000

theorem DWInv_step_t1 (c c' : ExecConfig SimpleDBReadUncommittedWriteLock) (lg : Bool)
    (hInv : DWInv c) (hstep : workerStep storeOpsWL c 0 = some (StepOut.ok c' lg)) :
    DWInv c' := by
  obtain ⟨p1, p2, p3, t1, t2, t3, hW, hP⟩ := hInv
  obtain ⟨hb1, hb2, hb3, hid10, hid11, hid20, hid21, hid30, hid31, hd12, hd13, hd23, hnext,
    hB1, hB2, hB3, hB4, hO1, hO2, hO3, hO4, hO5, hL1, hL2, hLk, hH1, hH2, hH3, hFresh,
    hD1a, hD1b, hD1c, hD2a, hD2b, hD2c, hR3, hR4⟩ := hP
  have hw0 : c.workers[0]? = some ⟨"txn1", t1, txn1Ops, p1⟩ := by rw [hW]; rfl
  interval_cases p1
  · -- p1 = 0 : BeginTx
    have hop : txn1Ops[0]? = some (Op.db DbAct.beginTx) := rfl
    unfold workerStep at hstep
    simp only [hw0, hop, storeOpsWL, wlBeginTx_eq] at hstep
    injection hstep with h1; injection h1 with hc hlg
    subst hc
    refine ⟨1, p2, p3, c.store.nextTxnId, t2, t3, ?_, ?_⟩
    · show c.workers.set 0 _ = _
      rw [hW]; rfl
    dsimp only [DWProps, advanceTx]
    refine ⟨by omega, hb2, hb3, fun h => absurd h (by omega), fun _ => ⟨hnext, by omega⟩,
      hid20, fun h => ⟨(hid21 h).1, by have := (hid21 h).2; omega⟩,
      hid30, fun h => ⟨(hid31 h).1, by have := (hid31 h).2; omega⟩,
      fun _ h2 => by have := (hid21 h2).2; omega,
      fun _ h3 => by have := (hid31 h3).2; omega,
      hd23, by omega,
      hB1.trans (by decide), hB2, hB3.trans (by decide), hB4,
      fun h => absurd (hO1 h) (by omega), fun h => absurd (hO2 h) (by omega),
      fun h => absurd (hO3 h) (by omega), hO4, fun h => absurd (hO5 h) (by omega),
      ?_, ?_, hLk, ?_, hH2, hH3, fun t ht => hFresh t (by omega),
      fun _ => hD1a (by omega), fun h _ => absurd h (by omega), hD1c,
      fun _ => hD2a (by omega), fun h _ => absurd h (by omega), hD2c, hR3, hR4⟩
    · rw [hL1]; omega
    · rw [hL2]; omega
    · intro k
      rw [heldBy_def]
      dsimp only
      have hf : c.store.txnHeldLocks c.store.nextTxnId = none := hFresh _ (le_refl _)
      rw [show heldOf c.store.txnHeldLocks c.store.nextTxnId k = false from by rw [heldOf, hf]]
      constructor
      · intro h; exact Bool.noConfusion h
      · rintro (⟨hk, h2, h6⟩ | ⟨hk, h6⟩)
        · exact absurd h2 (by omega)
        · exact absurd h6 (by omega)
  · -- p1 = 1 : Set 1 100
    have hop : txn1Ops[1]? = some (Op.db (DbAct.set 1 100)) := rfl
    have hHeld : c.store.heldBy t1 1 = false := by
      rw [Bool.eq_false_iff]
      intro htrue
      rcases (hH1 1).mp htrue with ⟨_, h2, _⟩ | ⟨hk, _⟩
      · omega
      · exact absurd hk (by decide)
    have hRL : c.store.rowLocks 1 = false := by
      rw [Bool.eq_false_iff]
      intro htrue
      rcases hL1.mp htrue with ⟨h2, _⟩ | ⟨h4, _⟩
      · omega
      · exact absurd (hO2 h4) (by omega)
    have hcall := wlSet_free c.store t1 1 100 hHeld hRL
    unfold workerStep at hstep
    simp only [hw0, hop, storeOpsWL, hcall] at hstep
    injection hstep with h1; injection h1 with hc hlg
    subst hc
    have hne2 : t2 ≠ t1 := by
      rcases Nat.eq_zero_or_pos p2 with hp2 | hp2
      · have := hid20 hp2; have := (hid11 (by omega)).1; omega
      · exact (hd12 (by omega) (by omega)).symm
    have hne3 : t3 ≠ t1 := by
      rcases Nat.eq_zero_or_pos p3 with hp3 | hp3
      · have := hid30 hp3; have := (hid11 (by omega)).1; omega
      · exact (hd13 (by omega) (by omega)).symm
    refine ⟨2, p2, p3, t1, t2, t3, ?_, ?_⟩
    · show c.workers.set 0 _ = _
      rw [hW]; rfl
    dsimp only [DWProps, advance]
    refine ⟨by omega, hb2, hb3, fun h => absurd h (by omega), fun _ => hid11 (by omega),
      hid20, hid21, hid30, hid31, fun _ h2 => hd12 (by omega) h2,
      fun _ h3 => hd13 (by omega) h3, hd23, hnext,
      hB1.trans (by decide), hB2, hB3.trans (by decide), hB4,
      fun h => absurd (hO1 h) (by omega), fun h => absurd (hO2 h) (by omega),
      fun h => absurd (hO3 h) (by omega), hO4, fun h => absurd (hO5 h) (by omega),
      ?_, ?_, ?_, ?_, ?_, ?_, fun t ht => ?_,
      fun h => absurd h (by omega), fun _ h2 => ?_, fun h => absurd (hO2 h) (by omega),
      fun _ => ?_, fun h _ => absurd h (by omega), fun h => absurd (hO2 (by omega)) (by omega),
      hR3, hR4⟩
    · constructor
      · intro _; exact Or.inl ⟨by omega, by omega⟩
      · intro _; simp
    · rw [show (if (2 : Int) = 1 then true else c.store.rowLocks 2) = c.store.rowLocks 2
          from by norm_num, hL2]
      omega
    · intro k hk1 hk2
      rw [if_neg hk1]
      exact hLk k hk1 hk2
    · intro k
      rw [heldBy_def]
      dsimp only
      rw [heldOf_updF_same]
      by_cases hk : k = 1
      · subst hk
        simp
      · rw [if_neg hk, hH1 k]
        omega
    · intro k
      rw [heldBy_def]
      dsimp only
      rw [heldOf_updF_other _ _ _ _ _ hne2, ← heldBy_def]
      exact hH2 k
    · intro k
      rw [heldBy_def]
      dsimp only
      rw [heldOf_updF_other _ _ _ _ _ hne3, ← heldBy_def]
      exact hH3 k
    · rw [updF_other _ _ _ _ (by have := (hid11 (by omega)).2; omega : t ≠ t1)]
      exact hFresh t ht
    · rw [updF_same]
    · rw [updF_other _ _ _ _ (by decide : (2 : Int) ≠ 1)]
      exact hD2a (by omega)
  · -- p1 = 2 : Barrier txn1_wrote_first
    have hop : txn1Ops[2]? = some (Op.barrier "txn1_wrote_first") := rfl
    have hb : c.barriers "txn1_wrote_first" = some false := hB1.trans (by decide)
    unfold workerStep at hstep
    simp only [hw0, hop, hb] at hstep
    injection hstep with h1; injection h1 with hc hlg
    subst hc
    refine ⟨3, p2, p3, t1, t2, t3, ?_, ?_⟩
    · show c.workers.set 0 _ = _
      rw [hW]; rfl
    dsimp only [DWProps, advance]
    refine ⟨by omega, hb2, hb3, fun h => absurd h (by omega), fun _ => hid11 (by omega),
      hid20, hid21, hid30, hid31, fun _ h2 => hd12 (by omega) h2,
      fun _ h3 => hd13 (by omega) h3, hd23, hnext,
      (updF_same _ _ _).trans (by decide),
      (updF_other _ _ _ _ (by decide)).trans hB2,
      (updF_other _ _ _ _ (by decide)).trans (hB3.trans (by decide)),
      (updF_other _ _ _ _ (by decide)).trans hB4,
      fun h => by omega, fun h => absurd (hO2 h) (by omega),
      fun h => absurd (hO3 h) (by omega), hO4, fun h => absurd (hO5 h) (by omega),
      ?_, ?_, hLk, ?_, hH2, hH3, hFresh,
      fun h => absurd h (by omega), fun _ h2 => hD1b (by omega) h2, hD1c,
      fun _ => hD2a (by omega), fun h _ => absurd h (by omega), hD2c, hR3, hR4⟩
    · rw [hL1]; omega
    · rw [hL2]; omega
    · intro k
      rw [hH1 k]; omega
  · -- p1 = 3 : WaitForWithTimeout
    have hop : txn1Ops[3]? = some (Op.waitForWithTimeout "txn2_wrote_second") := rfl
    unfold workerStep at hstep
    simp only [hw0, hop, timedWaitReturns, if_true] at hstep
    injection hstep with h1; injection h1 with hc hlg
    subst hc
    refine ⟨4, p2, p3, t1, t2, t3, ?_, ?_⟩
    · show c.workers.set 0 _ = _
      rw [hW]; rfl
    refine ⟨by omega, hb2, hb3, by omega, fun _ => hid11 (by omega), hid20, hid21,
      hid30, hid31, fun _ h2 => hd12 (by omega) h2, fun _ h3 => hd13 (by omega) h3, hd23,
      hnext, hB1.trans (by decide), hB2, hB3.trans (by decide), hB4,
      fun h => by omega, fun h => absurd (hO2 h) (by omega), fun h => absurd (hO3 h) (by omega),
      hO4, fun h => absurd (hO5 h) (by omega), ?_, ?_, hLk, ?_, hH2, hH3, hFresh,
      fun h => absurd h (by omega), fun _ h2 => hD1b (by omega) h2, hD1c,
      fun _ => hD2a (by omega), fun h _ => absurd h (by omega), hD2c, hR3, hR4⟩
    · show c.store.rowLocks 1 = true ↔ _
      rw [hL1]; omega
    · show c.store.rowLocks 2 = true ↔ _
      rw [hL2]; omega
    · intro k
      show c.store.heldBy t1 k = true ↔ _
      rw [hH1 k]; omega
  · -- p1 = 4 : PrintDbState
    have hop : txn1Ops[4]? = some (Op.db DbAct.printDbState) := rfl
    unfold workerStep at hstep
    simp only [hw0, hop] at hstep
    injection hstep with h1; injection h1 with hc hlg
    subst hc
    refine ⟨5, p2, p3, t1, t2, t3, ?_, ?_⟩
    · show c.workers.set 0 _ = _
      rw [hW]; rfl
    dsimp only [DWProps, advance]
    refine ⟨by omega, hb2, hb3, fun h => absurd h (by omega), fun _ => hid11 (by omega),
      hid20, hid21, hid30, hid31, fun _ h2 => hd12 (by omega) h2,
      fun _ h3 => hd13 (by omega) h3, hd23, hnext,
      hB1.trans (by decide), hB2, hB3.trans (by decide), hB4,
      fun h => by omega, fun h => absurd (hO2 h) (by omega),
      fun h => absurd (hO3 h) (by omega), hO4, fun h => absurd (hO5 h) (by omega),
      ?_, ?_, hLk, ?_, hH2, hH3, hFresh,
      fun h => absurd h (by omega), fun _ h2 => hD1b (by omega) h2, hD1c,
      fun _ => hD2a (by omega), fun h _ => absurd h (by omega), hD2c, hR3, hR4⟩
    · rw [hL1]; omega
    · rw [hL2]; omega
    · intro k
      rw [hH1 k]; omega
  · -- p1 = 5 : Set 2 200
    have hop : txn1Ops[5]? = some (Op.db (DbAct.set 2 200)) := rfl
    have hp2le : p2 ≤ 3 := by
      by_contra hgt
      exact absurd (hO2 (by omega)) (by omega)
    have hHeld : c.store.heldBy t1 2 = false := by
      rw [Bool.eq_false_iff]
      intro htrue
      rcases (hH1 2).mp htrue with ⟨hk, _, _⟩ | ⟨_, h6⟩
      · exact absurd hk (by decide)
      · omega
    have hRL : c.store.rowLocks 2 = false := by
      rw [Bool.eq_false_iff]
      intro htrue
      rcases hL2.mp htrue with h6 | ⟨h5, _⟩
      · omega
      · omega
    have hcall := wlSet_free c.store t1 2 200 hHeld hRL
    unfold workerStep at hstep
    simp only [hw0, hop, storeOpsWL, hcall] at hstep
    injection hstep with h1; injection h1 with hc hlg
    subst hc
    have hne2 : t2 ≠ t1 := by
      rcases Nat.eq_zero_or_pos p2 with hp2 | hp2
      · have := hid20 hp2; have := (hid11 (by omega)).1; omega
      · exact (hd12 (by omega) (by omega)).symm
    have hne3 : t3 ≠ t1 := by
      rcases Nat.eq_zero_or_pos p3 with hp3 | hp3
      · have := hid30 hp3; have := (hid11 (by omega)).1; omega
      · exact (hd13 (by omega) (by omega)).symm
    refine ⟨6, p2, p3, t1, t2, t3, ?_, ?_⟩
    · show c.workers.set 0 _ = _
      rw [hW]; rfl
    dsimp only [DWProps, advance]
    refine ⟨by omega, hb2, hb3, fun h => absurd h (by omega), fun _ => hid11 (by omega),
      hid20, hid21, hid30, hid31, fun _ h2 => hd12 (by omega) h2,
      fun _ h3 => hd13 (by omega) h3, hd23, hnext,
      hB1.trans (by decide), hB2, hB3.trans (by decide), hB4,
      fun h => by omega, fun h => absurd (hO2 h) (by omega),
      fun h => absurd (hO3 h) (by omega), hO4, fun h => absurd (hO5 h) (by omega),
      ?_, ?_, ?_, ?_, ?_, ?_, fun t ht => ?_,
      fun h => absurd h (by omega), fun _ h2 => ?_, fun h => absurd (hO2 h) (by omega),
      fun h => absurd h (by omega), fun _ _ => updF_same _ _ _,
      fun h => absurd (hO2 (by omega)) (by omega),
      hR3, hR4⟩
    · rw [show (if (1 : Int) = 2 then true else c.store.rowLocks 1) = c.store.rowLocks 1
          from by norm_num, hL1]
      omega
    · constructor
      · intro _; exact Or.inl rfl
      · intro _; simp
    · intro k hk1 hk2
      rw [if_neg hk2]
      exact hLk k hk1 hk2
    · intro k
      rw [heldBy_def]
      dsimp only
      rw [heldOf_updF_same]
      by_cases hk : k = 2
      · subst hk
        simp
      · rw [if_neg hk, hH1 k]
        omega
    · intro k
      rw [heldBy_def]
      dsimp only
      rw [heldOf_updF_other _ _ _ _ _ hne2, ← heldBy_def]
      exact hH2 k
    · intro k
      rw [heldBy_def]
      dsimp only
      rw [heldOf_updF_other _ _ _ _ _ hne3, ← heldBy_def]
      exact hH3 k
    · rw [updF_other _ _ _ _ (by have := (hid11 (by omega)).2; omega : t ≠ t1)]
      exact hFresh t ht
    · rw [updF_other _ _ _ _ (by decide : (1 : Int) ≠ 2)]
      exact hD1b (by omega) h2
  · -- p1 = 6 : Commit
    have hop : txn1Ops[6]? = some (Op.db DbAct.commit) := rfl
    unfold workerStep at hstep
    simp only [hw0, hop, storeOpsWL, wlCommit_eq] at hstep
    injection hstep with h1; injection h1 with hc hlg
    subst hc
    have hp2le : p2 ≤ 3 := by
      by_contra hgt
      exact absurd (hO2 (by omega)) (by omega)
    have hne2 : t2 ≠ t1 := by
      rcases Nat.eq_zero_or_pos p2 with hp2 | hp2
      · have := hid20 hp2; have := (hid11 (by omega)).1; omega
      · exact (hd12 (by omega) (by omega)).symm
    have hne3 : t3 ≠ t1 := by
      rcases Nat.eq_zero_or_pos p3 with hp3 | hp3
      · have := hid30 hp3; have := (hid11 (by omega)).1; omega
      · exact (hd13 (by omega) (by omega)).symm
    have h1true : c.store.heldBy t1 1 = true := (hH1 1).mpr (Or.inl ⟨rfl, by omega, by omega⟩)
    have h2true : c.store.heldBy t1 2 = true := (hH1 2).mpr (Or.inr ⟨rfl, rfl⟩)
    refine ⟨7, p2, p3, t1, t2, t3, ?_, ?_⟩
    · show c.workers.set 0 _ = _
      rw [hW]; rfl
    dsimp only [DWProps, advance]
    refine ⟨by omega, hb2, hb3, fun h => absurd h (by omega), fun _ => hid11 (by omega),
      hid20, hid21, hid30, hid31, fun _ h2 => hd12 (by omega) h2,
      fun _ h3 => hd13 (by omega) h3, hd23, hnext,
      hB1.trans (by decide), hB2, hB3.trans (by decide), hB4,
      fun h => by omega, fun h => absurd (hO2 h) (by omega),
      fun h => absurd (hO3 h) (by omega), hO4, fun h => absurd (hO5 h) (by omega),
      ?_, ?_, ?_, ?_, ?_, ?_, fun t ht => ?_,
      fun h => absurd h (by omega), fun _ h2 => hD1b (by omega) h2, hD1c,
      fun h => absurd h (by omega), fun _ h2 => hD2b (by omega) h2, hD2c, hR3, hR4⟩
    · simp only [h1true, if_true]
      constructor
      · intro h; exact Bool.noConfusion h
      · rintro (⟨h2, h6⟩ | ⟨h4, h7⟩)
        · omega
        · exact absurd (hO2 h4) (by omega)
    · simp only [h2true, if_true]
      constructor
      · intro h; exact Bool.noConfusion h
      · rintro (h6 | ⟨h5, h7⟩)
        · omega
        · exact absurd (hO2 (by omega)) (by omega)
    · intro k hk1 hk2
      have hkfalse : c.store.heldBy t1 k = false := by
        rw [Bool.eq_false_iff]
        intro htrue
        rcases (hH1 k).mp htrue with ⟨hk, _, _⟩ | ⟨hk, _⟩
        · exact hk1 hk
        · exact hk2 hk
      rw [hkfalse, if_neg (by simp)]
      exact hLk k hk1 hk2
    · intro k
      rw [heldBy_def]
      dsimp only
      rw [heldOf_updF_none]
      constructor
      · intro h; exact Bool.noConfusion h
      · rintro (⟨_, _, h6⟩ | ⟨_, h6⟩)
        · omega
        · omega
    · intro k
      rw [heldBy_def]
      dsimp only
      rw [heldOf_updF_other _ _ _ _ _ hne2, ← heldBy_def]
      exact hH2 k
    · intro k
      rw [heldBy_def]
      dsimp only
      rw [heldOf_updF_other _ _ _ _ _ hne3, ← heldBy_def]
      exact hH3 k
    · rw [updF_other _ _ _ _ (by have := (hid11 (by omega)).2; omega : t ≠ t1)]
      exact hFresh t ht
  · -- p1 = 7 : Barrier txn1_committed
    have hop : txn1Ops[7]? = some (Op.barrier "txn1_committed") := rfl
    have hb : c.barriers "txn1_committed" = some false := hB3.trans (by decide)
    unfold workerStep at hstep
    simp only [hw0, hop, hb] at hstep
    injection hstep with h1; injection h1 with hc hlg
    subst hc
    refine ⟨8, p2, p3, t1, t2, t3, ?_, ?_⟩
    · show c.workers.set 0 _ = _
      rw [hW]; rfl
    dsimp only [DWProps, advance]
    refine ⟨by omega, hb2, hb3, fun h => absurd h (by omega), fun _ => hid11 (by omega),
      hid20, hid21, hid30, hid31, fun _ h2 => hd12 (by omega) h2,
      fun _ h3 => hd13 (by omega) h3, hd23, hnext,
      (updF_other _ _ _ _ (by decide)).trans (hB1.trans (by decide)),
      (updF_other _ _ _ _ (by decide)).trans hB2,
      (updF_same _ _ _).trans (by decide),
      (updF_other _ _ _ _ (by decide)).trans hB4,
      fun h => by omega, fun h => by omega,
      fun h => by omega, hO4, fun h => by omega,
      ?_, ?_, hLk, ?_, hH2, hH3, hFresh,
      fun h => absurd h (by omega), fun _ h2 => hD1b (by omega) h2, hD1c,
      fun h => absurd h (by omega), fun _ h2 => hD2b (by omega) h2, hD2c, hR3, hR4⟩
    · rw [hL1]; omega
    · rw [hL2]; omega
    · intro k
      rw [hH1 k]; omega
  · -- p1 = 8 : done, no step possible
    have hop : txn1Ops[8]? = (none : Option Op) := rfl
    unfold workerStep at hstep
    simp only [hw0, hop] at hstep
    exact Option.noConfusion hstep

theorem DWInv_step_t2 (c c' : ExecConfig SimpleDBReadUncommittedWriteLock) (lg : Bool)
    (hInv : DWInv c) (hstep : workerStep storeOpsWL c 1 = some (StepOut.ok c' lg)) :
    DWInv c' := by
  obtain ⟨p1, p2, p3, t1, t2, t3, hW, hP⟩ := hInv
  obtain ⟨hb1, hb2, hb3, hid10, hid11, hid20, hid21, hid30, hid31, hd12, hd13, hd23, hnext,
    hB1, hB2, hB3, hB4, hO1, hO2, hO3, hO4, hO5, hL1, hL2, hLk, hH1, hH2, hH3, hFresh,
    hD1a, hD1b, hD1c, hD2a, hD2b, hD2c, hR3, hR4⟩ := hP
  have hw1 : c.workers[1]? = some ⟨"txn2", t2, txn2Ops, p2⟩ := by rw [hW]; rfl
  interval_cases p2
  · -- p2 = 0 : BeginTx
    have hop : txn2Ops[0]? = some (Op.db DbAct.beginTx) := rfl
    unfold workerStep at hstep
    simp only [hw1, hop, storeOpsWL, wlBeginTx_eq] at hstep
    injection hstep with h1; injection h1 with hc hlg
    subst hc
    refine ⟨p1, 1, p3, t1, c.store.nextTxnId, t3, ?_, ?_⟩
    · show c.workers.set 1 _ = _
      rw [hW]; rfl
    dsimp only [DWProps, advanceTx]
    refine ⟨hb1, by omega, hb3, hid10,
      fun h => ⟨(hid11 h).1, by have := (hid11 h).2; omega⟩,
      fun h => absurd h (by omega), fun _ => ⟨hnext, by omega⟩,
      hid30, fun h => ⟨(hid31 h).1, by have := (hid31 h).2; omega⟩,
      fun h1 _ => by have := (hid11 h1).2; omega,
      hd13,
      fun _ h3 => by have := (hid31 h3).2; omega,
      by omega,
      hB1, hB2.trans (by decide), hB3, hB4.trans (by decide),
      fun h => absurd h (by omega), fun h => absurd h (by omega),
      fun h => absurd h (by omega), fun h => absurd (hO4 h) (by omega), hO5,
      ?_, ?_, hLk, hH1, ?_, hH3, fun t ht => hFresh t (by omega),
      hD1a, fun h _ => hD1b h (by omega), fun h => absurd h (by omega),
      hD2a, fun h _ => hD2b h (by omega), fun h => absurd h (by omega), hR3, hR4⟩
    · rw [hL1]; omega
    · rw [hL2]; omega
    · intro k
      rw [heldBy_def]
      dsimp only
      have hf : c.store.txnHeldLocks c.store.nextTxnId = none := hFresh _ (le_refl _)
      rw [show heldOf c.store.txnHeldLocks c.store.nextTxnId k = false from by rw [heldOf, hf]]
      constructor
      · intro h; exact Bool.noConfusion h
      · rintro (⟨hk, h2, h6⟩ | ⟨hk, h6, _⟩)
        · exact absurd h2 (by omega)
        · exact absurd h6 (by omega)
  · -- p2 = 1 : WaitFor txn1_wrote_first
    have hop : txn2Ops[1]? = some (Op.waitFor "txn1_wrote_first") := rfl
    unfold workerStep at hstep
    simp only [hw1, hop, hB1] at hstep
    rcases Nat.lt_or_ge p1 3 with hlt | hge
    · have hdec : decide (3 ≤ p1) = false := decide_eq_false (by omega)
      rw [hdec] at hstep
      exact Option.noConfusion hstep
    have hdec : decide (3 ≤ p1) = true := decide_eq_true hge
    rw [hdec] at hstep
    injection hstep with h1; injection h1 with hc hlg
    subst hc
    refine ⟨p1, 2, p3, t1, t2, t3, ?_, ?_⟩
    · show c.workers.set 1 _ = _
      rw [hW]; rfl
    dsimp only [DWProps, advance]
    refine ⟨hb1, by omega, hb3, hid10, hid11, fun h => absurd h (by omega),
      fun _ => hid21 (by omega), hid30, hid31, fun h1 _ => hd12 h1 (by omega),
      hd13, fun _ h3 => hd23 (by omega) h3, hnext,
      hB1, hB2.trans (by decide), hB3, hB4.trans (by decide),
      fun _ => hge, fun h => absurd h (by omega), fun h => absurd h (by omega),
      fun h => absurd (hO4 h) (by omega), hO5,
      ?_, ?_, hLk, hH1, ?_, hH3, hFresh,
      hD1a, fun h1 _ => hD1b h1 (by omega), fun h => absurd h (by omega),
      hD2a, fun h1 _ => hD2b h1 (by omega), fun h => absurd h (by omega), hR3, hR4⟩
    · rw [hL1]; omega
    · rw [hL2]; omega
    · intro k
      rw [hH2 k]; omega
  · -- p2 = 2 : PrintDbState
    have hop : txn2Ops[2]? = some (Op.db DbAct.printDbState) := rfl
    unfold workerStep at hstep
    simp only [hw1, hop] at hstep
    injection hstep with h1; injection h1 with hc hlg
    subst hc
    refine ⟨p1, 3, p3, t1, t2, t3, ?_, ?_⟩
    · show c.workers.set 1 _ = _
      rw [hW]; rfl
    dsimp only [DWProps, advance]
    refine ⟨hb1, by omega, hb3, hid10, hid11, fun h => absurd h (by omega),
      fun _ => hid21 (by omega), hid30, hid31, fun h1 _ => hd12 h1 (by omega),
      hd13, fun _ h3 => hd23 (by omega) h3, hnext,
      hB1, hB2.trans (by decide), hB3, hB4.trans (by decide),
      fun _ => hO1 (by omega), fun h => absurd h (by omega), fun h => absurd h (by omega),
      fun h => absurd (hO4 h) (by omega), hO5,
      ?_, ?_, hLk, hH1, ?_, hH3, hFresh,
      hD1a, fun h1 _ => hD1b h1 (by omega), fun h => absurd h (by omega),
      hD2a, fun h1 _ => hD2b h1 (by omega), fun h => absurd h (by omega), hR3, hR4⟩
    · rw [hL1]; omega
    · rw [hL2]; omega
    · intro k
      rw [hH2 k]; omega
  · -- p2 = 3 : Set 1 200
    have hop : txn2Ops[3]? = some (Op.db (DbAct.set 1 200)) := rfl
    have hHeld : c.store.heldBy t2 1 = false := by
      rw [Bool.eq_false_iff]
      intro htrue
      rcases (hH2 1).mp htrue with ⟨_, h4, _⟩ | ⟨hk, _⟩
      · omega
      · exact absurd hk (by decide)
    cases hRL : c.store.rowLocks 1 with
    | true =>
      have hcall := wlSet_blocked c.store t2 1 200 hHeld hRL
      unfold workerStep at hstep
      simp only [hw1, hop, storeOpsWL, hcall] at hstep
      exact Option.noConfusion hstep
    | false =>
      have hcall := wlSet_free c.store t2 1 200 hHeld hRL
      unfold workerStep at hstep
      simp only [hw1, hop, storeOpsWL, hcall] at hstep
      injection hstep with h1; injection h1 with hc hlg
      subst hc
      have h31 : 3 ≤ p1 := hO1 (by omega)
      have hnotlock : ¬((2 ≤ p1 ∧ p1 ≤ 6) ∨ (4 ≤ (3 : ℕ) ∧ (3 : ℕ) ≤ 7)) := by
        rw [← hL1]
        simp [hRL]
      have hp1ge7 : 7 ≤ p1 := by omega
      have hne1 : t1 ≠ t2 := hd12 (by omega) (by omega)
      have hne3 : t3 ≠ t2 := by
        rcases Nat.eq_zero_or_pos p3 with hp3 | hp3
        · have := hid30 hp3; have := (hid21 (by omega)).1; omega
        · exact (hd23 (by omega) (by omega)).symm
      refine ⟨p1, 4, p3, t1, t2, t3, ?_, ?_⟩
      · show c.workers.set 1 _ = _
        rw [hW]; rfl
      dsimp only [DWProps, advance]
      refine ⟨hb1, by omega, hb3, hid10, hid11, fun h => absurd h (by omega),
        fun _ => hid21 (by omega), hid30, hid31, fun h1 _ => hd12 h1 (by omega),
        hd13, fun _ h3 => hd23 (by omega) h3, hnext,
        hB1, hB2.trans (by decide), hB3, hB4.trans (by decide),
        fun _ => by omega, fun _ => by omega, fun h => absurd h (by omega),
        fun h => absurd (hO4 h) (by omega), hO5,
        ?_, ?_, ?_, ?_, ?_, ?_, fun t ht => ?_,
        fun h => absurd h (by omega), fun _ h2 => absurd h2 (by omega),
        fun _ => updF_same _ _ _,
        fun h => absurd h (by omega), fun h1 _ => ?_, fun h => absurd h (by omega),
        hR3, hR4⟩
      · constructor
        · intro _; exact Or.inr ⟨by omega, by omega⟩
        · intro _; simp
      · rw [show (if (2 : Int) = 1 then true else c.store.rowLocks 2) = c.store.rowLocks 2
            from by norm_num, hL2]
        omega
      · intro k hk1 hk2
        rw [if_neg hk1]
        exact hLk k hk1 hk2
      · intro k
        rw [heldBy_def]
        dsimp only
        rw [heldOf_updF_other _ _ _ _ _ hne1, ← heldBy_def]
        rw [hH1 k]
      · intro k
        rw [heldBy_def]
        dsimp only
        rw [heldOf_updF_same]
        by_cases hk : k = 1
        · subst hk
          simp
        · rw [if_neg hk, hH2 k]
          omega
      · intro k
        rw [heldBy_def]
        dsimp only
        rw [heldOf_updF_other _ _ _ _ _ hne3, ← heldBy_def]
        exact hH3 k
      · rw [updF_other _ _ _ _ (by have := (hid21 (by omega)).2; omega : t ≠ t2)]
        exact hFresh t ht
      · rw [updF_other _ _ _ _ (by decide : (2 : Int) ≠ 1)]
        exact hD2b h1 (by omega)
  · -- p2 = 4 : Set 2 100
    have hop : txn2Ops[4]? = some (Op.db (DbAct.set 2 100)) := rfl
    have hp1ge7 : 7 ≤ p1 := hO2 (by omega)
    have hHeld : c.store.heldBy t2 2 = false := by
      rw [Bool.eq_false_iff]
      intro htrue
      rcases (hH2 2).mp htrue with ⟨hk, _⟩ | ⟨_, h5, _⟩
      · exact absurd hk (by decide)
      · omega
    have hRL : c.store.rowLocks 2 = false := by
      rw [Bool.eq_false_iff]
      intro htrue
      rcases hL2.mp htrue with h6 | ⟨h5, _⟩
      · omega
      · omega
    have hcall := wlSet_free c.store t2 2 100 hHeld hRL
    unfold workerStep at hstep
    simp only [hw1, hop, storeOpsWL, hcall] at hstep
    injection hstep with h1; injection h1 with hc hlg
    subst hc
    have hne1 : t1 ≠ t2 := hd12 (by omega) (by omega)
    have hne3 : t3 ≠ t2 := by
      rcases Nat.eq_zero_or_pos p3 with hp3 | hp3
      · have := hid30 hp3; have := (hid21 (by omega)).1; omega
      · exact (hd23 (by omega) (by omega)).symm
    refine ⟨p1, 5, p3, t1, t2, t3, ?_, ?_⟩
    · show c.workers.set 1 _ = _
      rw [hW]; rfl
    dsimp only [DWProps, advance]
    refine ⟨hb1, by omega, hb3, hid10, hid11, fun h => absurd h (by omega),
      fun _ => hid21 (by omega), hid30, hid31, fun h1 _ => hd12 h1 (by omega),
      hd13, fun _ h3 => hd23 (by omega) h3, hnext,
      hB1, hB2.trans (by decide), hB3, hB4.trans (by decide),
      fun _ => by omega, fun _ => by omega, fun h => absurd h (by omega),
      fun h => absurd (hO4 h) (by omega), hO5,
      ?_, ?_, ?_, ?_, ?_, ?_, fun t ht => ?_,
      fun h => absurd h (by omega), fun _ h2 => absurd h2 (by omega), fun _ => ?_,
      fun h => absurd h (by omega), fun _ h2 => absurd h2 (by omega),
      fun _ => updF_same _ _ _,
      hR3, hR4⟩
    · rw [show (if (1 : Int) = 2 then true else c.store.rowLocks 1) = c.store.rowLocks 1
          from by norm_num, hL1]
      omega
    · constructor
      · intro _; exact Or.inr ⟨by omega, by omega⟩
      · intro _; simp
    · intro k hk1 hk2
      rw [if_neg hk2]
      exact hLk k hk1 hk2
    · intro k
      rw [heldBy_def]
      dsimp only
      rw [heldOf_updF_other _ _ _ _ _ hne1, ← heldBy_def]
      rw [hH1 k]
    · intro k
      rw [heldBy_def]
      dsimp only
      rw [heldOf_updF_same]
      by_cases hk : k = 2
      · subst hk
        simp
      · rw [if_neg hk, hH2 k]
        omega
    · intro k
      rw [heldBy_def]
      dsimp only
      rw [heldOf_updF_other _ _ _ _ _ hne3, ← heldBy_def]
      exact hH3 k
    · rw [updF_other _ _ _ _ (by have := (hid21 (by omega)).2; omega : t ≠ t2)]
      exact hFresh t ht
    · rw [updF_other _ _ _ _ (by decide : (1 : Int) ≠ 2)]
      exact hD1c (by omega)
  · -- p2 = 5 : Barrier txn2_wrote_second
    have hop : txn2Ops[5]? = some (Op.barrier "txn2_wrote_second") := rfl
    have hb : c.barriers "txn2_wrote_second" = some false := hB2.trans (by decide)
    unfold workerStep at hstep
    simp only [hw1, hop, hb] at hstep
    injection hstep with h1; injection h1 with hc hlg
    subst hc
    have hp1ge7 : 7 ≤ p1 := hO2 (by omega)
    refine ⟨p1, 6, p3, t1, t2, t3, ?_, ?_⟩
    · show c.workers.set 1 _ = _
      rw [hW]; rfl
    dsimp only [DWProps, advance]
    refine ⟨hb1, by omega, hb3, hid10, hid11, fun h => absurd h (by omega),
      fun _ => hid21 (by omega), hid30, hid31, fun h1 _ => hd12 h1 (by omega),
      hd13, fun _ h3 => hd23 (by omega) h3, hnext,
      (updF_other _ _ _ _ (by decide)).trans hB1,
      (updF_same _ _ _).trans (by decide),
      (updF_other _ _ _ _ (by decide)).trans hB3,
      (updF_other _ _ _ _ (by decide)).trans (hB4.trans (by decide)),
      fun _ => by omega, fun _ => by omega, fun h => absurd h (by omega),
      fun h => absurd (hO4 h) (by omega), hO5,
      ?_, ?_, hLk, hH1, ?_, hH3, hFresh,
      fun h => absurd h (by omega), fun _ h2 => absurd h2 (by omega),
      fun _ => hD1c (by omega),
      fun h => absurd h (by omega), fun _ h2 => absurd h2 (by omega),
      fun _ => hD2c (by omega),
      hR3, hR4⟩
    · rw [hL1]; omega
    · rw [hL2]; omega
    · intro k
      rw [hH2 k]; omega
  · -- p2 = 6 : WaitFor txn1_committed
    have hop : txn2Ops[6]? = some (Op.waitFor "txn1_committed") := rfl
    unfold workerStep at hstep
    simp only [hw1, hop, hB3] at hstep
    rcases Nat.lt_or_ge p1 8 with hlt | hge
    · have hdec : decide (8 ≤ p1) = false := decide_eq_false (by omega)
      rw [hdec] at hstep
      exact Option.noConfusion hstep
    have hdec : decide (8 ≤ p1) = true := decide_eq_true hge
    rw [hdec] at hstep
    injection hstep with h1; injection h1 with hc hlg
    subst hc
    refine ⟨p1, 7, p3, t1, t2, t3, ?_, ?_⟩
    · show c.workers.set 1 _ = _
      rw [hW]; rfl
    dsimp only [DWProps, advance]
    refine ⟨hb1, by omega, hb3, hid10, hid11, fun h => absurd h (by omega),
      fun _ => hid21 (by omega), hid30, hid31, fun h1 _ => hd12 h1 (by omega),
      hd13, fun _ h3 => hd23 (by omega) h3, hnext,
      hB1, hB2.trans (by decide), hB3, hB4.trans (by decide),
      fun _ => by omega, fun _ => by omega, fun _ => hge,
      fun h => absurd (hO4 h) (by omega), hO5,
      ?_, ?_, hLk, hH1, ?_, hH3, hFresh,
      fun h => absurd h (by omega), fun _ h2 => absurd h2 (by omega),
      fun _ => hD1c (by omega),
      fun h => absurd h (by omega), fun _ h2 => absurd h2 (by omega),
      fun _ => hD2c (by omega),
      hR3, hR4⟩
    · rw [hL1]; omega
    · rw [hL2]; omega
    · intro k
      rw [hH2 k]; omega
  · -- p2 = 7 : Commit
    have hop : txn2Ops[7]? = some (Op.db DbAct.commit) := rfl
    unfold workerStep at hstep
    simp only [hw1, hop, storeOpsWL, wlCommit_eq] at hstep
    injection hstep with h1; injection h1 with hc hlg
    subst hc
    have hp1ge8 : 8 ≤ p1 := hO3 (by omega)
    have hne1 : t1 ≠ t2 := hd12 (by omega) (by omega)
    have hne3 : t3 ≠ t2 := by
      rcases Nat.eq_zero_or_pos p3 with hp3 | hp3
      · have := hid30 hp3; have := (hid21 (by omega)).1; omega
      · exact (hd23 (by omega) (by omega)).symm
    have h1true : c.store.heldBy t2 1 = true := (hH2 1).mpr (Or.inl ⟨rfl, by omega, by omega⟩)
    have h2true : c.store.heldBy t2 2 = true := (hH2 2).mpr (Or.inr ⟨rfl, by omega, by omega⟩)
    refine ⟨p1, 8, p3, t1, t2, t3, ?_, ?_⟩
    · show c.workers.set 1 _ = _
      rw [hW]; rfl
    dsimp only [DWProps, advance]
    refine ⟨hb1, by omega, hb3, hid10, hid11, fun h => absurd h (by omega),
      fun _ => hid21 (by omega), hid30, hid31, fun h1 _ => hd12 h1 (by omega),
      hd13, fun _ h3 => hd23 (by omega) h3, hnext,
      hB1, hB2.trans (by decide), hB3, hB4.trans (by decide),
      fun _ => by omega, fun _ => by omega, fun _ => by omega,
      fun h => absurd (hO4 h) (by omega), hO5,
      ?_, ?_, ?_, ?_, ?_, ?_, fun t ht => ?_,
      fun h => absurd h (by omega), fun _ h2 => absurd h2 (by omega),
      fun _ => hD1c (by omega),
      fun h => absurd h (by omega), fun _ h2 => absurd h2 (by omega),
      fun _ => hD2c (by omega),
      hR3, hR4⟩
    · simp only [h1true, if_true]
      constructor
      · intro h; exact Bool.noConfusion h
      · rintro (⟨h2, h6⟩ | ⟨h4, h7⟩)
        · omega
        · omega
    · simp only [h2true, if_true]
      constructor
      · intro h; exact Bool.noConfusion h
      · rintro (h6 | ⟨h5, h7⟩)
        · omega
        · omega
    · intro k hk1 hk2
      have hkfalse : c.store.heldBy t2 k = false := by
        rw [Bool.eq_false_iff]
        intro htrue
        rcases (hH2 k).mp htrue with ⟨hk, _⟩ | ⟨hk, _⟩
        · exact hk1 hk
        · exact hk2 hk
      rw [hkfalse, if_neg (by simp)]
      exact hLk k hk1 hk2
    · intro k
      rw [heldBy_def]
      dsimp only
      rw [heldOf_updF_other _ _ _ _ _ hne1, ← heldBy_def]
      rw [hH1 k]
    · intro k
      rw [heldBy_def]
      dsimp only
      rw [heldOf_updF_none]
      constructor
      · intro h; exact Bool.noConfusion h
      · rintro (⟨_, _, h7⟩ | ⟨_, _, h7⟩)
        · omega
        · omega
    · intro k
      rw [heldBy_def]
      dsimp only
      rw [heldOf_updF_other _ _ _ _ _ hne3, ← heldBy_def]
      exact hH3 k
    · rw [updF_other _ _ _ _ (by have := (hid21 (by omega)).2; omega : t ≠ t2)]
      exact hFresh t ht
  · -- p2 = 8 : Barrier txn2_committed
    have hop : txn2Ops[8]? = some (Op.barrier "txn2_committed") := rfl
    have hb : c.barriers "txn2_committed" = some false := hB4.trans (by decide)
    unfold workerStep at hstep
    simp only [hw1, hop, hb] at hstep
    injection hstep with h1; injection h1 with hc hlg
    subst hc
    have hp1ge8 : 8 ≤ p1 := hO3 (by omega)
    refine ⟨p1, 9, p3, t1, t2, t3, ?_, ?_⟩
    · show c.workers.set 1 _ = _
      rw [hW]; rfl
    dsimp only [DWProps, advance]
    refine ⟨hb1, by omega, hb3, hid10, hid11, fun h => absurd h (by omega),
      fun _ => hid21 (by omega), hid30, hid31, fun h1 _ => hd12 h1 (by omega),
      hd13, fun _ h3 => hd23 (by omega) h3, hnext,
      (updF_other _ _ _ _ (by decide)).trans hB1,
      (updF_other _ _ _ _ (by decide)).trans (hB2.trans (by decide)),
      (updF_other _ _ _ _ (by decide)).trans hB3,
      (updF_same _ _ _).trans (by decide),
      fun _ => by omega, fun _ => by omega, fun _ => by omega,
      fun _ => by omega, hO5,
      ?_, ?_, hLk, hH1, ?_, hH3, hFresh,
      fun h => absurd h (by omega), fun _ h2 => absurd h2 (by omega),
      fun _ => hD1c (by omega),
      fun h => absurd h (by omega), fun _ h2 => absurd h2 (by omega),
      fun _ => hD2c (by omega),
      hR3, hR4⟩
    · rw [hL1]; omega
    · rw [hL2]; omega
    · intro k
      rw [hH2 k]; omega
  · -- p2 = 9 : done, no step possible
    have hop : txn2Ops[9]? = (none : Option Op) := rfl
    unfold workerStep at hstep
    simp only [hw1, hop] at hstep
    exact Option.noConfusion hstep

theorem DWInv_step_t3 (c c' : ExecConfig SimpleDBReadUncommittedWriteLock) (lg : Bool)
    (hInv : DWInv c) (hstep : workerStep storeOpsWL c 2 = some (StepOut.ok c' lg)) :
    DWInv c' := by
  obtain ⟨p1, p2, p3, t1, t2, t3, hW, hP⟩ := hInv
  obtain ⟨hb1, hb2, hb3, hid10, hid11, hid20, hid21, hid30, hid31, hd12, hd13, hd23, hnext,
    hB1, hB2, hB3, hB4, hO1, hO2, hO3, hO4, hO5, hL1, hL2, hLk, hH1, hH2, hH3, hFresh,
    hD1a, hD1b, hD1c, hD2a, hD2b, hD2c, hR3, hR4⟩ := hP
  have hw2 : c.workers[2]? = some ⟨"txn3", t3, txn3Ops, p3⟩ := by rw [hW]; rfl
  interval_cases p3
  · -- p3 = 0 : BeginTx
    have hop : txn3Ops[0]? = some (Op.db DbAct.beginTx) := rfl
    unfold workerStep at hstep
    simp only [hw2, hop, storeOpsWL, wlBeginTx_eq] at hstep
    injection hstep with h1; injection h1 with hc hlg
    subst hc
    refine ⟨p1, p2, 1, t1, t2, c.store.nextTxnId, ?_, ?_⟩
    · show c.workers.set 2 _ = _
      rw [hW]; rfl
    dsimp only [DWProps, advanceTx]
    refine ⟨hb1, hb2, by omega, hid10,
      fun h => ⟨(hid11 h).1, by have := (hid11 h).2; omega⟩,
      hid20, fun h => ⟨(hid21 h).1, by have := (hid21 h).2; omega⟩,
      fun h => absurd h (by omega), fun _ => ⟨hnext, by omega⟩,
      hd12,
      fun h1 _ => by have := (hid11 h1).2; omega,
      fun h2 _ => by have := (hid21 h2).2; omega,
      by omega,
      hB1, hB2, hB3, hB4,
      hO1, hO2, hO3, fun h => absurd h (by omega), fun h => absurd h (by omega),
      hL1, hL2, hLk, hH1, hH2, ?_, fun t ht => hFresh t (by omega),
      hD1a, hD1b, hD1c, hD2a, hD2b, hD2c, hR3, hR4⟩
    · intro k
      rw [heldBy_def]
      dsimp only
      have hf : c.store.txnHeldLocks c.store.nextTxnId = none := hFresh _ (le_refl _)
      rw [show heldOf c.store.txnHeldLocks c.store.nextTxnId k = false from by rw [heldOf, hf]]
  · -- p3 = 1 : WaitFor txn2_committed
    have hop : txn3Ops[1]? = some (Op.waitFor "txn2_committed") := rfl
    unfold workerStep at hstep
    simp only [hw2, hop, hB4] at hstep
    rcases Nat.lt_or_ge p2 9 with hlt | hge
    · have hdec : decide (9 ≤ p2) = false := decide_eq_false (by omega)
      rw [hdec] at hstep
      exact Option.noConfusion hstep
    have hdec : decide (9 ≤ p2) = true := decide_eq_true hge
    rw [hdec] at hstep
    injection hstep with h1; injection h1 with hc hlg
    subst hc
    refine ⟨p1, p2, 2, t1, t2, t3, ?_, ?_⟩
    · show c.workers.set 2 _ = _
      rw [hW]; rfl
    dsimp only [DWProps, advance]
    refine ⟨hb1, hb2, by omega, hid10, hid11, hid20, hid21,
      fun h => absurd h (by omega), fun _ => hid31 (by omega),
      hd12, fun h1 _ => hd13 h1 (by omega), fun h2 _ => hd23 h2 (by omega), hnext,
      hB1, hB2, hB3, hB4,
      hO1, hO2, hO3, fun _ => hge, fun _ => hO3 (by omega),
      hL1, hL2, hLk, hH1, hH2, hH3, hFresh,
      hD1a, hD1b, hD1c, hD2a, hD2b, hD2c, hR3, hR4⟩
  · -- p3 = 2 : WaitFor txn1_committed
    have hop : txn3Ops[2]? = some (Op.waitFor "txn1_committed") := rfl
    unfold workerStep at hstep
    simp only [hw2, hop, hB3] at hstep
    rcases Nat.lt_or_ge p1 8 with hlt | hge
    · have hdec : decide (8 ≤ p1) = false := decide_eq_false (by omega)
      rw [hdec] at hstep
      exact Option.noConfusion hstep
    have hdec : decide (8 ≤ p1) = true := decide_eq_true hge
    rw [hdec] at hstep
    injection hstep with h1; injection h1 with hc hlg
    subst hc
    refine ⟨p1, p2, 3, t1, t2, t3, ?_, ?_⟩
    · show c.workers.set 2 _ = _
      rw [hW]; rfl
    dsimp only [DWProps, advance]
    refine ⟨hb1, hb2, by omega, hid10, hid11, hid20, hid21,
      fun h => absurd h (by omega), fun _ => hid31 (by omega),
      hd12, fun h1 _ => hd13 h1 (by omega), fun h2 _ => hd23 h2 (by omega), hnext,
      hB1, hB2, hB3, hB4,
      hO1, hO2, hO3, fun _ => hO4 (by omega), fun _ => hge,
      hL1, hL2, hLk, hH1, hH2, hH3, hFresh,
      hD1a, hD1b, hD1c, hD2a, hD2b, hD2c, hR3, hR4⟩
  · -- p3 = 3 : Get 1
    have hop : txn3Ops[3]? = some (Op.db (DbAct.get 1)) := rfl
    have h92 : 9 ≤ p2 := hO4 (by omega)
    have hdata : c.store.data 1 = some 200 := hD1c (by omega)
    unfold workerStep at hstep
    simp only [hw2, hop, storeOpsWL, SimpleDBReadUncommittedWriteLock.Get, hdata,
      Option.getD_some] at hstep
    injection hstep with h1; injection h1 with hc hlg
    subst hc
    refine ⟨p1, p2, 4, t1, t2, t3, ?_, ?_⟩
    · show c.workers.set 2 _ = _
      rw [hW]; rfl
    dsimp only [DWProps, advance]
    refine ⟨hb1, hb2, by omega, hid10, hid11, hid20, hid21,
      fun h => absurd h (by omega), fun _ => hid31 (by omega),
      hd12, fun h1 _ => hd13 h1 (by omega), fun h2 _ => hd23 h2 (by omega), hnext,
      hB1, hB2, hB3, hB4,
      hO1, hO2, hO3, fun _ => by omega, fun _ => hO5 (by omega),
      hL1, hL2, hLk, hH1, hH2, hH3, hFresh,
      hD1a, hD1b, hD1c, hD2a, hD2b, hD2c, ?_, ?_⟩
    · simp [updResults]
    · simp [updResults, hR4]
  · -- p3 = 4 : Get 2
    have hop : txn3Ops[4]? = some (Op.db (DbAct.get 2)) := rfl
    have h92 : 9 ≤ p2 := hO4 (by omega)
    have hdata : c.store.data 2 = some 100 := hD2c (by omega)
    unfold workerStep at hstep
    simp only [hw2, hop, storeOpsWL, SimpleDBReadUncommittedWriteLock.Get, hdata,
      Option.getD_some] at hstep
    injection hstep with h1; injection h1 with hc hlg
    subst hc
    refine ⟨p1, p2, 5, t1, t2, t3, ?_, ?_⟩
    · show c.workers.set 2 _ = _
      rw [hW]; rfl
    dsimp only [DWProps, advance]
    refine ⟨hb1, hb2, by omega, hid10, hid11, hid20, hid21,
      fun h => absurd h (by omega), fun _ => hid31 (by omega),
      hd12, fun h1 _ => hd13 h1 (by omega), fun h2 _ => hd23 h2 (by omega), hnext,
      hB1, hB2, hB3, hB4,
      hO1, hO2, hO3, fun _ => by omega, fun _ => hO5 (by omega),
      hL1, hL2, hLk, hH1, hH2, hH3, hFresh,
      hD1a, hD1b, hD1c, hD2a, hD2b, hD2c, ?_, ?_⟩
    · simp [updResults, hR3]
    · simp [updResults]
  · -- p3 = 5 : Commit
    have hop : txn3Ops[5]? = some (Op.db DbAct.commit) := rfl
    unfold workerStep at hstep
    simp only [hw2, hop, storeOpsWL, wlCommit_eq] at hstep
    injection hstep with h1; injection h1 with hc hlg
    subst hc
    have h92 : 9 ≤ p2 := hO4 (by omega)
    have h81 : 8 ≤ p1 := hO5 (by omega)
    have hne1 : t1 ≠ t3 := hd13 (by omega) (by omega)
    have hne2 : t2 ≠ t3 := hd23 (by omega) (by omega)
    refine ⟨p1, p2, 6, t1, t2, t3, ?_, ?_⟩
    · show c.workers.set 2 _ = _
      rw [hW]; rfl
    dsimp only [DWProps, advance]
    refine ⟨hb1, hb2, by omega, hid10, hid11, hid20, hid21,
      fun h => absurd h (by omega), fun _ => hid31 (by omega),
      hd12, fun h1 _ => hd13 h1 (by omega), fun h2 _ => hd23 h2 (by omega), hnext,
      hB1, hB2, hB3, hB4,
      hO1, hO2, hO3, fun _ => by omega, fun _ => by omega,
      ?_, ?_, ?_, ?_, ?_, ?_, fun t ht => ?_,
      hD1a, hD1b, hD1c, hD2a, hD2b, hD2c, hR3, hR4⟩
    · rw [hH3 1, if_neg (by simp)]
      exact hL1
    · rw [hH3 2, if_neg (by simp)]
      exact hL2
    · intro k hk1 hk2
      rw [hH3 k, if_neg (by simp)]
      exact hLk k hk1 hk2
    · intro k
      rw [heldBy_def]
      dsimp only
      rw [heldOf_updF_other _ _ _ _ _ hne1, ← heldBy_def]
      exact hH1 k
    · intro k
      rw [heldBy_def]
      dsimp only
      rw [heldOf_updF_other _ _ _ _ _ hne2, ← heldBy_def]
      exact hH2 k
    · intro k
      rw [heldBy_def]
      dsimp only
      rw [heldOf_updF_none]
    · rw [updF_other _ _ _ _ (by have := (hid31 (by omega)).2; omega : t ≠ t3)]
      exact hFresh t ht
  · -- p3 = 6 : done, no step possible
    have hop : txn3Ops[6]? = (none : Option Op) := rfl
    unfold workerStep at hstep
    simp only [hw2, hop] at hstep
    exact Option.noConfusion hstep

theorem DWInv_step (c c' : ExecConfig SimpleDBReadUncommittedWriteLock) (i : Nat) (lg : Bool)
    (hInv : DWInv c) (hstep : workerStep storeOpsWL c i = some (StepOut.ok c' lg)) :
    DWInv c' := by
  match i with
  | 0 => exact DWInv_step_t1 c c' lg hInv hstep
  | 1 => exact DWInv_step_t2 c c' lg hInv hstep
  | 2 => exact DWInv_step_t3 c c' lg hInv hstep
  | (n+3) =>
    obtain ⟨p1, p2, p3, t1, t2, t3, hW, _⟩ := hInv
    have hw : c.workers[n+3]? = none := by rw [hW]; rfl
    unfold workerStep at hstep
    simp only [hw] at hstep
    exact Option.noConfusion hstep

theorem DWInv_init : DWInv dirtyWriteInit := by
  refine ⟨0, 0, 0, 0, 0, 0, rfl, ?_⟩
  refine ⟨by omega, by omega, by omega, fun _ => rfl, fun h => absurd h (by omega),
    fun _ => rfl, fun h => absurd h (by omega), fun _ => rfl, fun h => absurd h (by omega),
    fun h _ => absurd h (by omega), fun h _ => absurd h (by omega),
    fun h _ => absurd h (by omega), by decide,
    rfl, rfl, rfl, rfl,
    fun h => absurd h (by omega), fun h => absurd h (by omega),
    fun h => absurd h (by omega), fun h => absurd h (by omega),
    fun h => absurd h (by omega),
    by rw [show dirtyWriteInit.store.rowLocks 1 = false from rfl]; simp,
    by rw [show dirtyWriteInit.store.rowLocks 2 = false from rfl]; simp,
    fun _ _ _ => rfl,
    fun k => by rw [show dirtyWriteInit.store.heldBy 0 k = false from rfl]; simp,
    fun k => by rw [show dirtyWriteInit.store.heldBy 0 k = false from rfl]; simp,
    fun _ => rfl, fun _ _ => rfl,
    fun _ => rfl, fun h _ => absurd h (by omega), fun h => absurd h (by omega),
    fun _ => rfl, fun h _ => absurd h (by omega), fun h => absurd h (by omega),
    rfl, rfl⟩

theorem DWInv_run (sched : List Nat) :
    ∀ c c' : ExecConfig SimpleDBReadUncommittedWriteLock,
      run storeOpsWL sched c = some c' → DWInv c → DWInv c' := by
  induction sched with
  | nil =>
    intro c c' hrun hInv
    have : c = c' := Option.some.inj hrun
    subst this
    exact hInv
  | cons i rest ih =>
    intro c c' hrun hInv
    unfold run at hrun
    cases hstep : workerStep storeOpsWL c i with
    | none => rw [hstep] at hrun; exact Option.noConfusion hrun
    | some out =>
      rw [hstep] at hrun
      cases out with
      | fatal => exact Option.noConfusion hrun
      | ok c1 lg =>
        exact ih c1 c' hrun (DWInv_step c c1 i lg hInv hstep)

/-- C2.  Against the row-locked store, every complete execution of the
canonical dirty-write scenario — under every possible interleaving of its
three workers, with the bounded-timeout wait free to fire at any moment —
ends with key 1 and key 2 holding the distinct values 200 and 100: the final
read results are one of the two consistent outcomes (here always
`(200, 100)`), never equal values. -/
theorem dirty_write_prevented_row_lock (sched : List Nat)
    (c : ExecConfig SimpleDBReadUncommittedWriteLock)
    (hrun : run storeOpsWL sched dirtyWriteInit = some c)
    (hdone : allDoneB c = true) :
    c.store.data 1 = some 200 ∧ c.store.data 2 = some 100 ∧
    ((resultsGet c.results "txn3" 3 = 100 ∧ resultsGet c.results "txn3" 4 = 200) ∨
     (resultsGet c.results "txn3" 3 = 200 ∧ resultsGet c.results "txn3" 4 = 100)) ∧
    resultsGet c.results "txn3" 3 ≠ resultsGet c.results "txn3" 4 := by
  have hInv : DWInv c := DWInv_run sched dirtyWriteInit c hrun DWInv_init
  obtain ⟨p1, p2, p3, t1, t2, t3, hW, hP⟩ := hInv
  obtain ⟨hb1, hb2, hb3, _, _, _, _, _, _, _, _, _, _,
    _, _, _, _, _, _, _, _, _, _, _, _, _, _, _, _,
    _, _, hD1c, _, _, hD2c, hR3, hR4⟩ := hP
  rw [allDoneB, hW] at hdone
  simp only [List.all_cons, List.all_nil, Bool.and_true, Bool.and_eq_true,
    decide_eq_true_eq] at hdone
  have hp1 : p1 = 8 := by
    have := hdone.1
    simp only [txn1Ops, List.length_cons, List.length_nil] at this
    omega
  have hp2 : p2 = 9 := by
    have := hdone.2.1
    simp only [txn2Ops, List.length_cons, List.length_nil] at this
    omega
  have hp3 : p3 = 6 := by
    have := hdone.2.2
    simp only [txn3Ops, List.length_cons, List.length_nil] at this
    omega
  subst hp1; subst hp2; subst hp3
  have hv3 : resultsGet c.results "txn3" 3 = 200 := by
    rw [resultsGet, hR3]
    rfl
  have hv4 : resultsGet c.results "txn3" 4 = 100 := by
    rw [resultsGet, hR4]
    rfl
  refine ⟨hD1c (by omega), hD2c (by omega), Or.inr ⟨hv3, hv4⟩, ?_⟩
  rw [hv3, hv4]
  decide

theorem dirty_write_prevented_row_lock_example :
    ∃ c : ExecConfig SimpleDBReadUncommittedWriteLock,
      run storeOpsWL [0, 0, 0, 0, 0, 0, 0, 0, 1, 1, 1, 1, 1, 1, 1, 1, 1, 2, 2, 2, 2, 2, 2]
        dirtyWriteInit = some c ∧
      allDoneB c = true ∧
      c.store.data 1 = some 200 ∧ c.store.data 2 = some 100 ∧
      resultsGet c.results "txn3" 3 ≠ resultsGet c.results "txn3" 4 := by
  have hs : (run storeOpsWL [0, 0, 0, 0, 0, 0, 0, 0, 1, 1, 1, 1, 1, 1, 1, 1, 1, 2, 2, 2, 2, 2, 2]
      dirtyWriteInit).isSome = true := rfl
  refine ⟨_, (Option.some_get hs).symm, rfl, ?_⟩
  have h := dirty_write_prevented_row_lock
    [0, 0, 0, 0, 0, 0, 0, 0, 1, 1, 1, 1, 1, 1, 1, 1, 1, 2, 2, 2, 2, 2, 2]
    _ (Option.some_get hs).symm rfl
  exact ⟨h.1, h.2.1, h.2.2.2⟩
